import Mathlib

/-!
Verification of the competitive-rating engine of the `tropadoseven` repository.

The engine has two implementations in the source:

* an application-level TypeScript one: `expectedScore`, `tanh` and
  `computeMatchDeltas` (src/lib/rating.ts, shown in `auth.ts`'s file group)
  driven by the replay loop of the admin `POST` endpoint (part_002);
* an in-database PL/pgSQL stored procedure `compute_rating_history`
  (part_006) together with the schema and the `v_player_current_rating` view.

Numbers are modelled over `ℝ` (the source computes with IEEE doubles; the
spec and all claims state real-number identities).  Player and match
identifiers are type parameters; JSON-keyed maps (`Record<string, number>`,
`jsonb`) are modelled as total functions, which is faithful because the
source always seeds a key (with the initial rating 1000, resp. delta 0)
before reading it.
-/

namespace Rating

noncomputable section

/-- Elo parameters `{ kFactor, kPerf, scale }` (source: `cfg` of
`computeMatchDeltas`; rows of the `rating_params` table). -/
structure EloCfg where
  kFactor : ℝ
  kPerf : ℝ
  scale : ℝ

/-- Source `expectedScore(ra, rb) = 1 / (1 + Math.pow(10, (rb - ra) / 400))`
(rating.ts lines 42-44); identical formula in the stored procedure. -/
def expectedScore (ra rb : ℝ) : ℝ :=
  1 / (1 + (10 : ℝ) ^ ((rb - ra) / 400))

/-- Source private `tanh(x) = (e^x - e^(-x)) / (e^x + e^(-x))`
(rating.ts lines 46-50). -/
def tanhJS (x : ℝ) : ℝ :=
  (Real.exp x - Real.exp (-x)) / (Real.exp x + Real.exp (-x))

/-- Source score of A against B:
`pointsById[a] > pointsById[b] ? 1 : pointsById[a] < pointsById[b] ? 0 : 0.5`.
Same three-way comparison in the stored procedure. -/
def scoreOf (pa pb : ℝ) : ℝ :=
  if pb < pa then 1 else if pa < pb then 0 else 1 / 2

variable {P : Type}

/-- The oriented pair contribution `d = kFactor * (sa - ea)` of the inner
loop body of `computeMatchDeltas` (rating.ts line 77-79). -/
def pairD (cfg : EloCfg) (points rating : P → ℝ) (a b : P) : ℝ :=
  cfg.kFactor * (scoreOf (points a) (points b) - expectedScore (rating a) (rating b))

/-- The index pairs `(i, j)` with `i < j` visited by the two nested loops of
`computeMatchDeltas`, as the corresponding element pairs of the list. -/
def pairs : List P → List (P × P)
  | [] => []
  | a :: rest => rest.map (fun b => (a, b)) ++ pairs rest

/-- One iteration of the pairwise loop: `deltas[a] += d; deltas[b] -= d`. -/
def applyPair (cfg : EloCfg) (points rating : P → ℝ) [DecidableEq P]
    (deltas : P → ℝ) (ab : P × P) : P → ℝ :=
  let d := pairD cfg points rating ab.1 ab.2
  let deltas1 := Function.update deltas ab.1 (deltas ab.1 + d)
  Function.update deltas1 ab.2 (deltas1 ab.2 - d)

/-- The pairwise Elo stage of `computeMatchDeltas` (rating.ts lines 69-83):
deltas initialised to 0, then the double loop over unordered pairs. -/
def pairwiseDeltas (cfg : EloCfg) [DecidableEq P] (playerIds : List P)
    (points rating : P → ℝ) : P → ℝ :=
  (pairs playerIds).foldl (applyPair cfg points rating) (fun _ => 0)

/-- One iteration of the performance loop:
`deltas[id] += cfg.kPerf * tanh((pointsById[id] - avg) / cfg.scale)`. -/
def applyPerf (cfg : EloCfg) (avg : ℝ) (points : P → ℝ) [DecidableEq P]
    (deltas : P → ℝ) (id : P) : P → ℝ :=
  Function.update deltas id (deltas id + cfg.kPerf * tanhJS ((points id - avg) / cfg.scale))

/-- Average points of the match: `playerIds.reduce(...) / playerIds.length`
(rating.ts line 68, the `let avg` of `computeMatchDeltas`). -/
def avgPoints (playerIds : List P) (points : P → ℝ) : ℝ :=
  (playerIds.map points).sum / playerIds.length

/-- Source `computeMatchDeltas` final stage (rating.ts lines 61-89): the
`let avg` of line 68 is `avgPoints`, then the performance loop runs over the
result of the pairwise stage. -/
def computeMatchDeltas (cfg : EloCfg) [DecidableEq P] (playerIds : List P)
    (points rating : P → ℝ) : P → ℝ :=
  playerIds.foldl (applyPerf cfg (avgPoints playerIds points) points)
    (pairwiseDeltas cfg playerIds points rating)

/-- The performance adjustment `kPerf * tanh((points - avg) / scale)` added
to a player's delta by the final loop of `computeMatchDeltas`. -/
def perfTerm (cfg : EloCfg) (avg : ℝ) (points : P → ℝ) (p : P) : ℝ :=
  cfg.kPerf * tanhJS ((points p - avg) / cfg.scale)

end

/-! ### Helper lemmas on list sums and update folds -/

theorem sum_map_neg {α : Type} (l : List α) (f : α → ℝ) :
    (l.map (fun x => -f x)).sum = -(l.map f).sum := by
  induction l with
  | nil => simp
  | cons a t ih => simp [ih]; ring

theorem sum_ite_single {P : Type} [DecidableEq P] (c : P → ℝ) :
    ∀ (l : List P), l.Nodup → ∀ p : P,
      (l.map (fun id => if p = id then c id else 0)).sum = if p ∈ l then c p else 0 := by
  intro l
  induction l with
  | nil => simp
  | cons a t ih =>
    intro hl p
    obtain ⟨ha, ht⟩ := List.nodup_cons.mp hl
    by_cases hp : p = a
    · subst hp
      have h0 : (t.map (fun id => if p = id then c id else 0)).sum = 0 := by
        rw [ih ht p]; simp [ha]
      simp [h0]
    · simp only [List.map_cons, List.sum_cons, if_neg hp, ih ht p, zero_add]
      simp [List.mem_cons, hp, Ne.symm hp]

theorem foldl_add_contrib {P α : Type} (upd : (P → ℝ) → α → (P → ℝ))
    (contrib : α → P → ℝ) (h : ∀ f x p, upd f x p = f p + contrib x p) :
    ∀ (xs : List α) (f : P → ℝ) (p : P),
      (xs.foldl upd f) p = f p + (xs.map (fun x => contrib x p)).sum := by
  intro xs
  induction xs with
  | nil => simp
  | cons x t ih =>
    intro f p
    simp only [List.foldl_cons, List.map_cons, List.sum_cons, ih (upd f x) p, h f x p]
    ring

/-! ### Antisymmetry of the pairwise exchange -/

theorem scoreOf_antisymm (x y : ℝ) : scoreOf y x = 1 - scoreOf x y := by
  unfold scoreOf
  rcases lt_trichotomy x y with h | h | h
  · simp [h, lt_asymm h]
  · subst h; simp [lt_irrefl]; norm_num
  · simp [h, lt_asymm h]

theorem expectedScore_antisymm (ra rb : ℝ) :
    expectedScore rb ra = 1 - expectedScore ra rb := by
  unfold expectedScore
  have hsw : (ra - rb) / 400 = -((rb - ra) / 400) := by ring
  rw [hsw, Real.rpow_neg (by norm_num : (0:ℝ) ≤ 10)]
  set t : ℝ := (10 : ℝ) ^ ((rb - ra) / 400) with htdef
  have ht : 0 < t := Real.rpow_pos_of_pos (by norm_num) _
  have h1 : t ≠ 0 := ne_of_gt ht
  have h2 : t + 1 ≠ 0 := by positivity
  have e1 : 1 + t⁻¹ = (t + 1) / t := by field_simp
  rw [e1, one_div_div, eq_sub_iff_add_eq, show (1:ℝ) + t = t + 1 from by ring,
    div_add_div_same, div_self h2]

theorem pairD_antisymm {P : Type} (cfg : EloCfg) (points rating : P → ℝ) (a b : P) :
    pairD cfg points rating b a = -pairD cfg points rating a b := by
  unfold pairD
  rw [scoreOf_antisymm (points a) (points b), expectedScore_antisymm (rating a) (rating b)]
  ring

/-! ### Pointwise characterisation of the loop bodies -/

theorem applyPair_apply {P : Type} [DecidableEq P] (cfg : EloCfg)
    (points rating : P → ℝ) (f : P → ℝ) (ab : P × P) (p : P) :
    applyPair cfg points rating f ab p =
      f p + ((if p = ab.1 then pairD cfg points rating ab.1 ab.2 else 0)
        - (if p = ab.2 then pairD cfg points rating ab.1 ab.2 else 0)) := by
  obtain ⟨a, b⟩ := ab
  simp only [applyPair]
  by_cases hb : p = b
  · subst hb
    rw [Function.update_same, Function.update_apply]
    by_cases ha : p = a
    · subst ha; simp
    · rw [if_neg ha, if_neg ha, if_pos rfl]; ring
  · rw [Function.update_noteq hb, Function.update_apply]
    by_cases ha : p = a
    · subst ha; rw [if_pos rfl, if_pos rfl, if_neg hb]; ring
    · rw [if_neg ha, if_neg ha, if_neg hb]; ring

theorem applyPerf_apply {P : Type} [DecidableEq P] (cfg : EloCfg) (avg : ℝ)
    (points : P → ℝ) (f : P → ℝ) (id p : P) :
    applyPerf cfg avg points f id p =
      f p + (if p = id then perfTerm cfg avg points id else 0) := by
  simp only [applyPerf, Function.update_apply, perfTerm]
  split_ifs with h
  · subst h; rfl
  · ring

/-! ### Membership of the generated pairs -/

theorem mem_pairs {P : Type} : ∀ (l : List P) (ab : P × P), ab ∈ pairs l →
    ab.1 ∈ l ∧ ab.2 ∈ l := by
  intro l
  induction l with
  | nil => intro ab h; simp [pairs] at h
  | cons a t ih =>
    intro ab h
    simp only [pairs, List.mem_append, List.mem_map] at h
    rcases h with ⟨b, hb, rfl⟩ | h
    · exact ⟨List.mem_cons_self a t, List.mem_cons_of_mem a hb⟩
    · exact ⟨List.mem_cons_of_mem a (ih ab h).1, List.mem_cons_of_mem a (ih ab h).2⟩

/-! ### Closed form of the two loop stages -/

theorem pairs_contrib_sum {P : Type} [DecidableEq P] (pd : P → P → ℝ)
    (hanti : ∀ a b, pd b a = -pd a b) :
    ∀ (l : List P), l.Nodup → ∀ p : P,
      ((pairs l).map (fun ab => (if p = ab.1 then pd ab.1 ab.2 else 0)
          - (if p = ab.2 then pd ab.1 ab.2 else 0))).sum
        = if p ∈ l then ((l.erase p).map (fun q => pd p q)).sum else 0 := by
  intro l
  induction l with
  | nil => intro _ p; simp [pairs]
  | cons a t ih =>
    intro hl p
    obtain ⟨ha, ht⟩ := List.nodup_cons.mp hl
    simp only [pairs, List.map_append, List.sum_append, List.map_map]
    by_cases hp : p = a
    · subst hp
      have hpt : p ∉ t := ha
      have e1 : (t.map ((fun ab => (if p = ab.1 then pd ab.1 ab.2 else 0)
            - (if p = ab.2 then pd ab.1 ab.2 else 0)) ∘ fun b => (p, b))).sum
          = (t.map (fun q => pd p q)).sum := by
        apply congrArg
        apply List.map_congr_left
        intro b hb
        have hne : p ≠ b := fun hpb => hpt (hpb ▸ hb)
        simp [hne]
      rw [e1, ih ht p, if_neg hpt, if_pos (List.mem_cons_self p t), List.erase_cons_head,
        add_zero]
    · have e1 : (t.map ((fun ab => (if p = ab.1 then pd ab.1 ab.2 else 0)
            - (if p = ab.2 then pd ab.1 ab.2 else 0)) ∘ fun b => (a, b))).sum
          = (t.map (fun q => if p = q then pd p a else 0)).sum := by
        apply congrArg
        apply List.map_congr_left
        intro b _
        simp only [Function.comp_apply, if_neg hp]
        by_cases hpb : p = b
        · rw [if_pos hpb, if_pos hpb, hpb, hanti a b]; ring
        · rw [if_neg hpb, if_neg hpb]; ring
      rw [e1, sum_ite_single (fun _ => pd p a) t ht p, ih ht p]
      have herase : (a :: t).erase p = a :: t.erase p := by
        rw [List.erase_cons_tail]
        simp [Ne.symm hp]
      by_cases hpt : p ∈ t
      · rw [if_pos hpt, if_pos hpt, if_pos (List.mem_cons_of_mem a hpt), herase]
        simp only [List.map_cons, List.sum_cons]
      · rw [if_neg hpt, if_neg hpt]
        have hnotin : p ∉ a :: t := by simp [hp, hpt]
        rw [if_neg hnotin, add_zero]

theorem pairwiseDeltas_eq {P : Type} [DecidableEq P] (cfg : EloCfg)
    (l : List P) (hl : l.Nodup) (points rating : P → ℝ) (p : P) :
    pairwiseDeltas cfg l points rating p =
      if p ∈ l then ((l.erase p).map (fun q => pairD cfg points rating p q)).sum else 0 := by
  unfold pairwiseDeltas
  rw [foldl_add_contrib (applyPair cfg points rating)
    (fun ab q => (if q = ab.1 then pairD cfg points rating ab.1 ab.2 else 0)
      - (if q = ab.2 then pairD cfg points rating ab.1 ab.2 else 0))
    (fun f x q => applyPair_apply cfg points rating f x q) (pairs l) (fun _ => 0) p]
  rw [pairs_contrib_sum (pairD cfg points rating) (pairD_antisymm cfg points rating) l hl p]
  simp

theorem computeMatchDeltas_eq {P : Type} [DecidableEq P] (cfg : EloCfg)
    (l : List P) (hl : l.Nodup) (points rating : P → ℝ) (p : P) :
    computeMatchDeltas cfg l points rating p =
      if p ∈ l then
        ((l.erase p).map (fun q => pairD cfg points rating p q)).sum
          + perfTerm cfg (avgPoints l points) points p
      else 0 := by
  unfold computeMatchDeltas
  rw [foldl_add_contrib (applyPerf cfg (avgPoints l points) points)
    (fun id q => if q = id then perfTerm cfg (avgPoints l points) points id else 0)
    (fun f x q => applyPerf_apply cfg (avgPoints l points) points f x q) l
    (pairwiseDeltas cfg l points rating) p]
  rw [sum_ite_single (perfTerm cfg (avgPoints l points) points) l hl p]
  rw [pairwiseDeltas_eq cfg l hl points rating p]
  by_cases hp : p ∈ l
  · rw [if_pos hp, if_pos hp, if_pos hp]
  · rw [if_neg hp, if_neg hp, if_neg hp, add_zero]

theorem computeMatchDeltas_not_mem {P : Type} [DecidableEq P] (cfg : EloCfg)
    (l : List P) (points rating : P → ℝ) (p : P) (hp : p ∉ l) :
    computeMatchDeltas cfg l points rating p = 0 := by
  unfold computeMatchDeltas pairwiseDeltas
  rw [foldl_add_contrib (applyPerf cfg (avgPoints l points) points)
    (fun id q => if q = id then perfTerm cfg (avgPoints l points) points id else 0)
    (fun f x q => applyPerf_apply cfg (avgPoints l points) points f x q) l _ p]
  rw [foldl_add_contrib (applyPair cfg points rating)
    (fun ab q => (if q = ab.1 then pairD cfg points rating ab.1 ab.2 else 0)
      - (if q = ab.2 then pairD cfg points rating ab.1 ab.2 else 0))
    (fun f x q => applyPair_apply cfg points rating f x q) (pairs l) (fun _ => 0) p]
  have h1 : ((pairs l).map (fun ab => (if p = ab.1 then pairD cfg points rating ab.1 ab.2 else 0)
      - (if p = ab.2 then pairD cfg points rating ab.1 ab.2 else 0))).sum = 0 := by
    rw [List.sum_eq_zero]
    intro x hx
    obtain ⟨ab, hab, rfl⟩ := List.mem_map.mp hx
    have h := mem_pairs l ab hab
    have h1 : p ≠ ab.1 := fun hh => hp (hh ▸ h.1)
    have h2 : p ≠ ab.2 := fun hh => hp (hh ▸ h.2)
    rw [if_neg h1, if_neg h2]; ring
  have h2 : (l.map (fun id => if p = id
      then perfTerm cfg (avgPoints l points) points id else 0)).sum = 0 := by
    rw [List.sum_eq_zero]
    intro x hx
    obtain ⟨q, hq, rfl⟩ := List.mem_map.mp hx
    have : p ≠ q := fun hh => hp (hh ▸ hq)
    rw [if_neg this]
  rw [h1, h2]
  ring

/-- The source's hand-rolled `tanh` agrees with the mathematical hyperbolic
tangent (which the stored procedure's builtin `tanh` computes). -/
theorem tanhJS_eq_tanh (x : ℝ) : tanhJS x = Real.tanh x := by
  unfold tanhJS
  rw [Real.tanh_eq_sinh_div_cosh, Real.sinh_eq, Real.cosh_eq]
  have h : Real.exp x + Real.exp (-x) ≠ 0 := by positivity
  field_simp

theorem tanhJS_zero : tanhJS 0 = 0 := by
  rw [tanhJS_eq_tanh, Real.tanh_zero]

/-- Folding a list with an operation that ignores its second argument’s
effect (identity step) leaves the accumulator unchanged. -/
theorem foldl_fixed {α β : Type} (g : β → α → β) (h : ∀ d x, g d x = d) :
    ∀ (l : List α) (d : β), l.foldl g d = d := by
  intro l
  induction l with
  | nil => intro d; rfl
  | cons x t ih => intro d; rw [List.foldl_cons, h d x, ih d]

/-- Sum over `p` of the antisymmetric pair sums over `l.erase p` vanishes. -/
theorem antisymm_double_sum {P : Type} [DecidableEq P] (pd : P → P → ℝ)
    (hanti : ∀ a b, pd b a = -pd a b) :
    ∀ (l : List P), l.Nodup →
      (l.map (fun p => ((l.erase p).map (fun q => pd p q)).sum)).sum = 0 := by
  intro l
  induction l with
  | nil => simp
  | cons a t ih =>
    intro hl
    obtain ⟨ha, ht⟩ := List.nodup_cons.mp hl
    simp only [List.map_cons, List.sum_cons, List.erase_cons_head]
    have e1 : (t.map (fun p => (((a :: t).erase p).map (fun q => pd p q)).sum))
        = t.map (fun p => pd p a + ((t.erase p).map (fun q => pd p q)).sum) := by
      apply List.map_congr_left
      intro p hp
      have hpa : p ≠ a := fun h => ha (h ▸ hp)
      have herase : (a :: t).erase p = a :: t.erase p := by
        rw [List.erase_cons_tail]
        simp [Ne.symm hpa]
      rw [herase, List.map_cons, List.sum_cons]
    rw [e1, List.sum_map_add]
    have e2 : (t.map (fun p => pd p a)).sum = -(t.map (fun q => pd a q)).sum := by
      rw [show (t.map fun p => pd p a) = t.map fun p => -pd a p from
        List.map_congr_left fun p _ => hanti a p, sum_map_neg]
    rw [e2, ih ht]
    ring

/-- Converting a nodup list sum over `l.erase p` into a `Finset` sum. -/
theorem erase_map_sum_eq_finset {P : Type} [DecidableEq P] (l : List P)
    (hl : l.Nodup) (p : P) (f : P → ℝ) :
    ((l.erase p).map f).sum = ∑ q ∈ l.toFinset.erase p, f q := by
  have h1 : (l.erase p).toFinset = l.toFinset.erase p := by
    ext x
    simp only [List.mem_toFinset, Finset.mem_erase, hl.mem_erase_iff]
  rw [← h1, List.sum_toFinset f (hl.erase p)]

/-- The image of a finite set under the transposition of two of its members
is the set itself. -/
theorem image_swap_self {P : Type} [DecidableEq P] (s : Finset P) (a b : P)
    (ha : a ∈ s) (hb : b ∈ s) : s.image (Equiv.swap a b) = s := by
  have key : ∀ x, x ∈ s → Equiv.swap a b x ∈ s := by
    intro x hx
    by_cases h1 : x = a
    · subst h1; rw [Equiv.swap_apply_left]; exact hb
    by_cases h2 : x = b
    · subst h2; rw [Equiv.swap_apply_right]; exact ha
    · rw [Equiv.swap_apply_of_ne_of_ne h1 h2]; exact hx
  ext x
  simp only [Finset.mem_image]
  constructor
  · rintro ⟨y, hy, rfl⟩
    exact key y hy
  · intro hx
    exact ⟨Equiv.swap a b x, key x hx, Equiv.swap_apply_self a b x⟩

/-! ### Claim theorems about the calculator -/

/-- C2: in the 2-player scenario with both ratings 1000, points 40 vs 30 and
parameters kFactor=24, kPerf=10, scale=20, the calculator returns exactly
`deltaA = 12 + 10*tanh(1/4)` (≈ 14.45) and `deltaB = -(12 + 10*tanh(1/4))`
(≈ -14.45), hence new ratings `1012 + 10*tanh(1/4)` ≈ 1014.45 and
`988 - 10*tanh(1/4)` ≈ 985.55. -/
theorem C2_two_player_scenario :
    computeMatchDeltas ⟨24, 10, 20⟩ ([0, 1] : List ℕ)
        (fun n => if n = 0 then (40 : ℝ) else 30) (fun _ => 1000) 0
      = 12 + 10 * Real.tanh (1 / 4) ∧
    computeMatchDeltas ⟨24, 10, 20⟩ ([0, 1] : List ℕ)
        (fun n => if n = 0 then (40 : ℝ) else 30) (fun _ => 1000) 1
      = -(12 + 10 * Real.tanh (1 / 4)) := by
  have hnd : ([0, 1] : List ℕ).Nodup := by decide
  have havg : avgPoints ([0, 1] : List ℕ) (fun n => if n = 0 then (40 : ℝ) else 30) = 35 := by
    simp [avgPoints]
    norm_num
  have hexp : expectedScore (1000 : ℝ) 1000 = 1 / 2 := by
    unfold expectedScore
    norm_num
  constructor
  · rw [computeMatchDeltas_eq _ _ hnd _ _ 0, if_pos (by decide : (0:ℕ) ∈ [0, 1])]
    rw [show (([0, 1] : List ℕ).erase 0) = [1] from rfl, havg]
    simp only [List.map_cons, List.map_nil, List.sum_cons, List.sum_nil, add_zero]
    norm_num [pairD, perfTerm, scoreOf, hexp, tanhJS_eq_tanh]
  · rw [computeMatchDeltas_eq _ _ hnd _ _ 1, if_pos (by decide : (1:ℕ) ∈ [0, 1])]
    rw [show (([0, 1] : List ℕ).erase 1) = [0] from rfl, havg]
    simp only [List.map_cons, List.map_nil, List.sum_cons, List.sum_nil, add_zero]
    norm_num [pairD, perfTerm, scoreOf, hexp, tanhJS_eq_tanh, Real.tanh_neg]
    ring

/-- C3: for any match with distinct participants, the pairwise-only deltas
(the calculator's output before the performance adjustment, equivalently its
output with kPerf = 0) sum to exactly 0 over all participants. -/
theorem C3_pairwise_zero_sum {P : Type} [DecidableEq P] (cfg : EloCfg)
    (l : List P) (points rating : P → ℝ) (hl : l.Nodup) :
    (l.map (pairwiseDeltas cfg l points rating)).sum = 0 ∧
    computeMatchDeltas ⟨cfg.kFactor, 0, cfg.scale⟩ l points rating
      = pairwiseDeltas cfg l points rating := by
  constructor
  · have e1 : l.map (pairwiseDeltas cfg l points rating)
        = l.map (fun p => ((l.erase p).map (fun q => pairD cfg points rating p q)).sum) := by
      apply List.map_congr_left
      intro p hp
      rw [pairwiseDeltas_eq cfg l hl points rating p, if_pos hp]
    rw [e1, antisymm_double_sum (pairD cfg points rating) (pairD_antisymm cfg points rating) l hl]
  · have hzero : ∀ (d : P → ℝ) (id : P),
        applyPerf ⟨cfg.kFactor, 0, cfg.scale⟩
          (avgPoints l points) points d id = d := by
      intro d id
      unfold applyPerf
      simp
    unfold computeMatchDeltas
    rw [foldl_fixed _ hzero l]
    rfl

/-- C3 witness: the zero-sum theorem applied to a concrete 3-player match. -/
theorem C3_pairwise_zero_sum_witness :
    ([0, 1, 2] : List ℕ).Nodup ∧
      (([0, 1, 2] : List ℕ).map (pairwiseDeltas ⟨24, 10, 20⟩ ([0, 1, 2] : List ℕ)
        (fun _ => (7 : ℝ)) (fun _ => 1000))).sum = 0 :=
  ⟨by decide, (C3_pairwise_zero_sum ⟨24, 10, 20⟩ ([0, 1, 2] : List ℕ)
    (fun _ => (7 : ℝ)) (fun _ => 1000) (by decide)).1⟩

/-- C4 counterexample: a full tie in points does NOT give zero deltas when
the ratings differ.  Two players both score 50, ratings 1000 vs 1400, with
parameters kFactor=24, kPerf=10, scale=20: the first player's delta is
`24 * (1/2 - 1/11) = 108/11 ≈ 9.8`, not 0. -/
theorem C4_counterexample :
    computeMatchDeltas ⟨24, 10, 20⟩ ([0, 1] : List ℕ) (fun _ => (50 : ℝ))
        (fun n => if n = 0 then (1000 : ℝ) else 1400) 0 = 108 / 11 ∧
      (108 / 11 : ℝ) ≠ 0 := by
  constructor
  · rw [computeMatchDeltas_eq _ _ (by decide) _ _ 0, if_pos (by decide : (0:ℕ) ∈ [0, 1])]
    rw [show (([0, 1] : List ℕ).erase 0) = [1] from rfl]
    simp only [List.map_cons, List.map_nil, List.sum_cons, List.sum_nil, add_zero]
    have hexp : expectedScore (1000 : ℝ) 1400 = 1 / 11 := by
      unfold expectedScore
      rw [show ((1400 : ℝ) - 1000) / 400 = 1 from by norm_num, Real.rpow_one]
      norm_num
    have havg : avgPoints ([0, 1] : List ℕ) (fun _ => (50 : ℝ)) = 50 := by
      norm_num [avgPoints]
    rw [havg]
    norm_num [pairD, perfTerm, scoreOf, hexp, tanhJS_zero]
  · norm_num

/-- C4 amended: if all participants have equal points AND equal current
ratings, the calculator returns a delta of exactly 0 for every participant. -/
theorem C4_all_tied_amended {P : Type} [DecidableEq P] (cfg : EloCfg)
    (l : List P) (points rating : P → ℝ) (c r : ℝ) (hl : l.Nodup)
    (hpts : ∀ p ∈ l, points p = c) (hrat : ∀ p ∈ l, rating p = r) :
    ∀ p ∈ l, computeMatchDeltas cfg l points rating p = 0 := by
  intro p hp
  rw [computeMatchDeltas_eq cfg l hl points rating p, if_pos hp]
  have hpair : ((l.erase p).map (fun q => pairD cfg points rating p q)).sum = 0 := by
    apply List.sum_eq_zero
    intro x hx
    obtain ⟨q, hq, rfl⟩ := List.mem_map.mp hx
    have hq2 : q ∈ l := List.mem_of_mem_erase hq
    unfold pairD
    rw [hpts p hp, hpts q hq2, hrat p hp, hrat q hq2]
    rw [show scoreOf c c = 1 / 2 from by unfold scoreOf; simp]
    rw [show expectedScore r r = 1 / 2 from by
      unfold expectedScore; rw [sub_self, zero_div, Real.rpow_zero]; norm_num]
    ring
  have hne : l ≠ [] := by
    intro h
    rw [h] at hp
    exact absurd hp (List.not_mem_nil p)
  have hlen : (l.length : ℝ) ≠ 0 :=
    Nat.cast_ne_zero.mpr (fun h => hne (List.length_eq_zero.mp h))
  have havg : avgPoints l points = c := by
    unfold avgPoints
    rw [show l.map points = l.map (fun _ => c) from List.map_congr_left hpts]
    rw [List.map_const', List.sum_replicate, nsmul_eq_mul,
      mul_div_cancel_left₀ c hlen]
  rw [hpair, havg]
  unfold perfTerm
  rw [hpts p hp, sub_self, zero_div, tanhJS_zero, mul_zero, add_zero]

/-- C4 witness: amended theorem instantiated on a concrete 2-player full tie
with equal ratings. -/
theorem C4_all_tied_amended_witness :
    ([0, 1] : List ℕ).Nodup ∧
      computeMatchDeltas ⟨24, 10, 20⟩ ([0, 1] : List ℕ) (fun _ => (50 : ℝ))
        (fun _ => (1000 : ℝ)) 0 = 0 :=
  ⟨by decide,
    C4_all_tied_amended ⟨24, 10, 20⟩ ([0, 1] : List ℕ) (fun _ => (50 : ℝ))
      (fun _ => (1000 : ℝ)) 50 1000 (by decide) (fun _ _ => rfl) (fun _ _ => rfl)
      0 (by decide)⟩

/-- Swapping two participants' points and ratings relabels the calculator's
output along the transposition. -/
theorem computeMatchDeltas_swap {P : Type} [DecidableEq P] (cfg : EloCfg)
    (l : List P) (points rating : P → ℝ) (a b : P) (hl : l.Nodup)
    (ha : a ∈ l) (hb : b ∈ l) (p : P) (hp : p ∈ l) :
    computeMatchDeltas cfg l (fun q => points (Equiv.swap a b q))
        (fun q => rating (Equiv.swap a b q)) p
      = computeMatchDeltas cfg l points rating (Equiv.swap a b p) := by
  have hσp : Equiv.swap a b p ∈ l := by
    by_cases h1 : p = a
    · subst h1; rw [Equiv.swap_apply_left]; exact hb
    by_cases h2 : p = b
    · subst h2; rw [Equiv.swap_apply_right]; exact ha
    · rw [Equiv.swap_apply_of_ne_of_ne h1 h2]; exact hp
  have hainj : ∀ x ∈ l.toFinset.erase p, ∀ y ∈ l.toFinset.erase p,
      Equiv.swap a b x = Equiv.swap a b y → x = y :=
    fun x _ y _ h => (Equiv.swap a b).injective h
  have himg : l.toFinset.image (Equiv.swap a b) = l.toFinset :=
    image_swap_self l.toFinset a b (List.mem_toFinset.mpr ha) (List.mem_toFinset.mpr hb)
  rw [computeMatchDeltas_eq cfg l hl _ _ p, if_pos hp]
  rw [computeMatchDeltas_eq cfg l hl points rating _, if_pos hσp]
  have hpair :
      ((l.erase p).map (fun q => pairD cfg (fun x => points (Equiv.swap a b x))
          (fun x => rating (Equiv.swap a b x)) p q)).sum
        = ((l.erase (Equiv.swap a b p)).map
            (fun q => pairD cfg points rating (Equiv.swap a b p) q)).sum := by
    rw [erase_map_sum_eq_finset l hl p, erase_map_sum_eq_finset l hl (Equiv.swap a b p)]
    calc ∑ q ∈ l.toFinset.erase p,
          pairD cfg (fun x => points (Equiv.swap a b x))
            (fun x => rating (Equiv.swap a b x)) p q
        = ∑ q ∈ l.toFinset.erase p,
            pairD cfg points rating (Equiv.swap a b p) (Equiv.swap a b q) :=
          Finset.sum_congr rfl (fun q _ => rfl)
      _ = ∑ q ∈ (l.toFinset.erase p).image (Equiv.swap a b),
            pairD cfg points rating (Equiv.swap a b p) q :=
          (Finset.sum_image hainj).symm
      _ = ∑ q ∈ l.toFinset.erase (Equiv.swap a b p),
            pairD cfg points rating (Equiv.swap a b p) q := by
          rw [Finset.image_erase (Equiv.swap a b).injective, himg]
  have havg : avgPoints l (fun q => points (Equiv.swap a b q)) = avgPoints l points := by
    unfold avgPoints
    congr 1
    rw [← List.sum_toFinset (fun q => points (Equiv.swap a b q)) hl,
      ← List.sum_toFinset points hl]
    calc ∑ q ∈ l.toFinset, points (Equiv.swap a b q)
        = ∑ q ∈ (l.toFinset).image (Equiv.swap a b), points q :=
          (Finset.sum_image (fun x _ y _ h => (Equiv.swap a b).injective h)).symm
      _ = ∑ q ∈ l.toFinset, points q := by rw [himg]
  rw [hpair, havg]
  rfl

/-- C9: swapping two participants' identities (points and ratings together)
swaps their resulting deltas and leaves every other participant's delta
unchanged. -/
theorem C9_swap_two_participants {P : Type} [DecidableEq P] (cfg : EloCfg)
    (l : List P) (points rating : P → ℝ) (a b : P) (hl : l.Nodup)
    (ha : a ∈ l) (hb : b ∈ l) :
    computeMatchDeltas cfg l (fun q => points (Equiv.swap a b q))
        (fun q => rating (Equiv.swap a b q)) a
      = computeMatchDeltas cfg l points rating b ∧
    computeMatchDeltas cfg l (fun q => points (Equiv.swap a b q))
        (fun q => rating (Equiv.swap a b q)) b
      = computeMatchDeltas cfg l points rating a ∧
    ∀ p ∈ l, p ≠ a → p ≠ b →
      computeMatchDeltas cfg l (fun q => points (Equiv.swap a b q))
          (fun q => rating (Equiv.swap a b q)) p
        = computeMatchDeltas cfg l points rating p := by
  refine ⟨?_, ?_, ?_⟩
  · rw [computeMatchDeltas_swap cfg l points rating a b hl ha hb a ha,
      Equiv.swap_apply_left]
  · rw [computeMatchDeltas_swap cfg l points rating a b hl ha hb b hb,
      Equiv.swap_apply_right]
  · intro p hp h1 h2
    rw [computeMatchDeltas_swap cfg l points rating a b hl ha hb p hp,
      Equiv.swap_apply_of_ne_of_ne h1 h2]

/-- Concrete points map used by the symmetry and order-invariance witnesses. -/
noncomputable def ptsW : ℕ → ℝ := fun n => 10 * n

/-- Concrete ratings map used by the symmetry and order-invariance witnesses. -/
noncomputable def ratW : ℕ → ℝ := fun _ => 1000

/-- C9 witness: the symmetry theorem applied to a concrete 3-player match,
swapping players 0 and 1. -/
theorem C9_swap_two_participants_witness :
    ([0, 1, 2] : List ℕ).Nodup ∧ (0 : ℕ) ∈ ([0, 1, 2] : List ℕ) ∧
      (1 : ℕ) ∈ ([0, 1, 2] : List ℕ) ∧
      (computeMatchDeltas ⟨24, 10, 20⟩ ([0, 1, 2] : List ℕ)
          (fun q => ptsW (Equiv.swap 0 1 q)) (fun q => ratW (Equiv.swap 0 1 q)) 0
        = computeMatchDeltas ⟨24, 10, 20⟩ ([0, 1, 2] : List ℕ) ptsW ratW 1 ∧
      computeMatchDeltas ⟨24, 10, 20⟩ ([0, 1, 2] : List ℕ)
          (fun q => ptsW (Equiv.swap 0 1 q)) (fun q => ratW (Equiv.swap 0 1 q)) 1
        = computeMatchDeltas ⟨24, 10, 20⟩ ([0, 1, 2] : List ℕ) ptsW ratW 0 ∧
      ∀ p ∈ ([0, 1, 2] : List ℕ), p ≠ 0 → p ≠ 1 →
        computeMatchDeltas ⟨24, 10, 20⟩ ([0, 1, 2] : List ℕ)
            (fun q => ptsW (Equiv.swap 0 1 q)) (fun q => ratW (Equiv.swap 0 1 q)) p
          = computeMatchDeltas ⟨24, 10, 20⟩ ([0, 1, 2] : List ℕ) ptsW ratW p) :=
  ⟨by decide, by decide, by decide,
    C9_swap_two_participants ⟨24, 10, 20⟩ ([0, 1, 2] : List ℕ)
      ptsW ratW 0 1 (by decide) (by decide) (by decide)⟩

/-- C10: the calculator's result depends only on the set of participants:
for any permutation of the `playerIds` array (points and ratings unchanged)
it returns the same delta for every player.  (All expected scores are taken
from the fixed pre-match `rating` map by construction: the replayers update
ratings only after all of a match's deltas are computed.) -/
theorem C10_order_invariance {P : Type} [DecidableEq P] (cfg : EloCfg)
    (l l2 : List P) (points rating : P → ℝ) (hl : l.Nodup) (hperm : l2.Perm l) :
    ∀ p, computeMatchDeltas cfg l2 points rating p
      = computeMatchDeltas cfg l points rating p := by
  intro p
  have hl2 : l2.Nodup := hperm.nodup_iff.mpr hl
  by_cases hp : p ∈ l
  · have hp2 : p ∈ l2 := hperm.mem_iff.mpr hp
    rw [computeMatchDeltas_eq cfg l2 hl2 points rating p, if_pos hp2,
      computeMatchDeltas_eq cfg l hl points rating p, if_pos hp]
    have htf : l2.toFinset = l.toFinset := List.toFinset_eq_of_perm l2 l hperm
    rw [erase_map_sum_eq_finset l2 hl2 p, erase_map_sum_eq_finset l hl p, htf]
    have havg : avgPoints l2 points = avgPoints l points := by
      unfold avgPoints
      rw [(hperm.map points).sum_eq, hperm.length_eq]
    rw [havg]
  · rw [computeMatchDeltas_not_mem cfg l2 points rating p
        (fun h => hp (hperm.mem_iff.mp h)),
      computeMatchDeltas_not_mem cfg l points rating p hp]

/-- C10 witness: order invariance on a concrete permuted 3-player match. -/
theorem C10_order_invariance_witness :
    ([0, 1, 2] : List ℕ).Nodup ∧ ([2, 0, 1] : List ℕ).Perm [0, 1, 2] ∧
      ∀ p, computeMatchDeltas ⟨24, 10, 20⟩ ([2, 0, 1] : List ℕ) ptsW ratW p
        = computeMatchDeltas ⟨24, 10, 20⟩ ([0, 1, 2] : List ℕ) ptsW ratW p :=
  ⟨by decide, by decide,
    C10_order_invariance ⟨24, 10, 20⟩ ([0, 1, 2] : List ℕ) ([2, 0, 1] : List ℕ)
      ptsW ratW (by decide) (by decide)⟩

/-!
### The two replayers

`jsReplay` embeds the application-level replay loop of the admin `POST`
endpoint (part_002 lines 80-108): matches are supplied already ordered by
`match_date, created_at` (the endpoint's `ORDER BY`), the running rating map
`ratingById` starts empty with every player seeded at 1000 on first sight —
modelled as the total function constantly 1000, which is faithful because
the endpoint always seeds a key before reading it — and each match with at
least 2 entries appends one history row per participant.

`sqlReplay` embeds the stored procedure `compute_rating_history`
(part_006 lines 289-360): same ordering and seeding (a `jsonb` map), but
pairs are produced by the self-join `a.player_id < b.player_id`, the
builtin `tanh` is used, there is NO skip of matches with fewer than two
entries, and every inserted row carries `created_at := rec_match.match_date`.
-/

noncomputable section

/-- Initial rating constant (`INITIAL_RATING = 1000` in part_002,
`initial_rating numeric := 1000` in the procedure). -/
def INITIAL_RATING : ℝ := 1000

/-- One match of the `matches` table with its `match_entries`
(player id, points). Dates and creation timestamps are integers. -/
structure MatchRec (M P : Type) where
  id : M
  matchDate : ℤ
  createdAt : ℤ
  entries : List (P × ℝ)

/-- History row pushed by the JS replay loop (`historyRows.push({...})`,
part_002 lines 101-106): no timestamp field — the insert leaves
`created_at` to the table default `now()`. -/
structure Row (M P : Type) where
  matchId : M
  player : P
  ratingAfter : ℝ
  delta : ℝ

/-- History row inserted by the stored procedure, including the explicit
`created_at` value (part_006 lines 355-356). -/
structure SqlRow (M P : Type) where
  matchId : M
  player : P
  ratingAfter : ℝ
  delta : ℝ
  stamp : ℤ

/-- Projection dropping the stamp, for comparing the two replayers' rows. -/
def dropStamp {M P : Type} (r : SqlRow M P) : Row M P :=
  ⟨r.matchId, r.player, r.ratingAfter, r.delta⟩

variable {M P : Type}

/-- The `pointsById` record built by `entries.forEach(e => pointsById[e.player_id]
= Number(e.points))` (part_002 lines 86-92); absent keys modelled as 0 (they
are never read). -/
def pointsMap [DecidableEq P] (es : List (P × ℝ)) : P → ℝ :=
  es.foldl (fun m e => Function.update m e.1 e.2) (fun _ => 0)

/-- The per-match loop of the JS replayer (part_002 lines 99-107): for each
participant in order, `ratingById[id] += deltas[id]` then push a history row
with the just-updated rating. -/
def matchLoopJS [DecidableEq P] (mid : M) (δ : P → ℝ)
    (st : (P → ℝ) × List (Row M P)) (ids : List P) : (P → ℝ) × List (Row M P) :=
  ids.foldl (fun acc id =>
    (Function.update acc.1 id (acc.1 id + δ id),
      acc.2 ++ [⟨mid, id, acc.1 id + δ id, δ id⟩])) st

/-- One match of the JS replay (part_002 lines 83-108): seed ratings (
absorbed by the total-function model), skip if fewer than 2 players,
otherwise call `computeMatchDeltas` and run the per-participant loop. -/
def replayStepJS [DecidableEq P] (cfg : EloCfg)
    (st : (P → ℝ) × List (Row M P)) (m : MatchRec M P) : (P → ℝ) × List (Row M P) :=
  if (m.entries.map Prod.fst).length < 2 then st
  else matchLoopJS m.id
    (computeMatchDeltas cfg (m.entries.map Prod.fst) (pointsMap m.entries) st.1)
    st (m.entries.map Prod.fst)

/-- The full JS replay (part_002 lines 80-108) over the chronologically
ordered match list: running ratings start at `INITIAL_RATING`, history
starts empty. -/
def jsReplay [DecidableEq P] (cfg : EloCfg) (ms : List (MatchRec M P)) :
    (P → ℝ) × List (Row M P) :=
  ms.foldl (replayStepJS cfg) (fun _ => INITIAL_RATING, [])

/-- The rows of the self-join
`match_entries a JOIN match_entries b ON a.player_id < b.player_id`
(part_006 lines 324-329): every pair of entries of the match whose first
player id is strictly below the second.  (The database returns them in an
unspecified order; this list fixes one.) -/
def sqlPairs [LinearOrder P] (es : List (P × ℝ)) : List ((P × ℝ) × (P × ℝ)) :=
  es.flatMap (fun a => (es.filter (fun b => a.1 < b.1)).map (fun b => (a, b)))

/-- Pairwise loop body of the procedure (part_006 lines 330-344):
`delta := kFactor * (score_a - expected_a)`, added to A's running delta and
subtracted from B's. -/
def applyPairE [DecidableEq P] (cfg : EloCfg) (R : P → ℝ)
    (d : P → ℝ) (ab : (P × ℝ) × (P × ℝ)) : P → ℝ :=
  let pd := cfg.kFactor * (scoreOf ab.1.2 ab.2.2 - expectedScore (R ab.1.1) (R ab.2.1))
  let d1 := Function.update d ab.1.1 (d ab.1.1 + pd)
  Function.update d1 ab.2.1 (d1 ab.2.1 - pd)

/-- `SELECT AVG(points) ... WHERE match_id = rec_match.id`
(part_006 line 346). -/
def avgEntries (es : List (P × ℝ)) : ℝ :=
  (es.map Prod.snd).sum / es.length

/-- The procedure's per-match delta computation (part_006 lines 317-351):
deltas seeded at 0 (`jsonb` map, modelled as the total 0 function), the
pairwise loop over the self-join, then the performance loop
`perf_adj := kPerf * tanh((points - avg_points) / scale_param)` over the
match's entries. -/
def sqlMatchDeltas [LinearOrder P] (cfg : EloCfg) (es : List (P × ℝ))
    (R : P → ℝ) : P → ℝ :=
  es.foldl (fun d e => Function.update d e.1
      (d e.1 + cfg.kPerf * Real.tanh ((e.2 - avgEntries es) / cfg.scale)))
    ((sqlPairs es).foldl (applyPairE cfg R) (fun _ => 0))

/-- Final loop of the procedure for one match (part_006 lines 352-357):
update `rating_by_id` and insert a history row stamped with
`rec_match.match_date`. -/
def matchLoopSQL [DecidableEq P] (mid : M) (stamp : ℤ) (δ : P → ℝ)
    (st : (P → ℝ) × List (SqlRow M P)) (ids : List P) :
    (P → ℝ) × List (SqlRow M P) :=
  ids.foldl (fun acc id =>
    (Function.update acc.1 id (acc.1 id + δ id),
      acc.2 ++ [⟨mid, id, acc.1 id + δ id, δ id, stamp⟩])) st

/-- One match of the stored procedure: no minimum-participant check. -/
def sqlStep [LinearOrder P] (cfg : EloCfg)
    (st : (P → ℝ) × List (SqlRow M P)) (m : MatchRec M P) :
    (P → ℝ) × List (SqlRow M P) :=
  matchLoopSQL m.id m.matchDate (sqlMatchDeltas cfg m.entries st.1) st
    (m.entries.map Prod.fst)

/-- The full `compute_rating_history` replay (part_006 lines 312-359) over
the chronologically ordered match list. -/
def sqlReplay [LinearOrder P] (cfg : EloCfg) (ms : List (MatchRec M P)) :
    (P → ℝ) × List (SqlRow M P) :=
  ms.foldl (sqlStep cfg) (fun _ => INITIAL_RATING, [])

end

/-! ### The points record built from a match's entries -/

theorem foldl_update_not_mem {P : Type} [DecidableEq P] (x : P) :
    ∀ (es : List (P × ℝ)) (f : P → ℝ), x ∉ es.map Prod.fst →
      (es.foldl (fun m e => Function.update m e.1 e.2) f) x = f x := by
  intro es
  induction es with
  | nil => intro f _; rfl
  | cons e t ih =>
    intro f hx
    simp only [List.map_cons, List.mem_cons] at hx
    push_neg at hx
    rw [List.foldl_cons, ih _ hx.2, Function.update_noteq hx.1]

theorem pointsMap_eq {P : Type} [DecidableEq P] :
    ∀ (es : List (P × ℝ)), (es.map Prod.fst).Nodup →
      ∀ e ∈ es, pointsMap es e.1 = e.2 := by
  have aux : ∀ (es : List (P × ℝ)) (f : P → ℝ), (es.map Prod.fst).Nodup →
      ∀ e ∈ es, (es.foldl (fun m e => Function.update m e.1 e.2) f) e.1 = e.2 := by
    intro es
    induction es with
    | nil => intro f _ e he; exact absurd he (List.not_mem_nil e)
    | cons e0 t ih =>
      intro f hnd e he
      simp only [List.map_cons, List.nodup_cons] at hnd
      rcases List.mem_cons.mp he with rfl | ht
      · rw [List.foldl_cons, foldl_update_not_mem e.1 t _ hnd.1, Function.update_same]
      · rw [List.foldl_cons]
        exact ih _ hnd.2 e ht
  intro es hnd e he
  exact aux es _ hnd e he

/-! ### Combinatorics of the self-join pair list -/

/-- Shape of `sqlPairs` at the level of bare player ids. -/
def sqlPairsIds {P : Type} [LinearOrder P] (l : List P) : List (P × P) :=
  l.flatMap (fun a => (l.filter (fun b => a < b)).map (fun b => (a, b)))

theorem flatMap_map_sum {α β : Type} (F : α → List β) (g : β → ℝ) :
    ∀ l : List α, ((l.flatMap F).map g).sum = (l.map (fun a => ((F a).map g).sum)).sum := by
  intro l
  induction l with
  | nil => rfl
  | cons x t ih => simp only [List.flatMap_cons, List.map_append, List.sum_append,
      List.map_cons, List.sum_cons, ih]

theorem filter_map_sum {α : Type} (Q : α → Bool) (f : α → ℝ) :
    ∀ l : List α, ((l.filter Q).map f).sum
      = (l.map (fun b => if Q b then f b else 0)).sum := by
  intro l
  induction l with
  | nil => rfl
  | cons x t ih =>
    rw [List.filter_cons, List.map_cons, List.sum_cons]
    by_cases hQ : Q x = true
    · rw [if_pos hQ, if_pos hQ, List.map_cons, List.sum_cons, ih]
    · rw [if_neg hQ, if_neg hQ, ih, zero_add]

theorem sqlPairsIds_cons_sum {P : Type} [LinearOrder P] (g : P × P → ℝ)
    (x : P) (t : List P) :
    ((sqlPairsIds (x :: t)).map g).sum
      = (t.map (fun b => (if x < b then g (x, b) else 0)
          + (if b < x then g (b, x) else 0))).sum
        + ((sqlPairsIds t).map g).sum := by
  unfold sqlPairsIds
  rw [List.flatMap_cons, List.map_append, List.sum_append]
  have hhead : ((((x :: t).filter (fun b => x < b)).map (fun b => (x, b))).map g).sum
      = (t.map (fun b => if x < b then g (x, b) else 0)).sum := by
    rw [List.filter_cons, if_neg (by simp : ¬(decide (x < x) = true))]
    rw [List.map_map, filter_map_sum]
    apply congrArg
    apply List.map_congr_left
    intro b _
    by_cases hxb : x < b
    · simp [hxb]
    · simp [hxb]
  have htail : ((t.flatMap (fun a =>
        (((x :: t).filter (fun b => a < b)).map (fun b => (a, b))))).map g).sum
      = (t.map (fun a => if a < x then g (a, x) else 0)).sum
        + ((t.flatMap (fun a => ((t.filter (fun b => a < b)).map (fun b => (a, b))))).map g).sum := by
    rw [flatMap_map_sum]
    have hper : ∀ a ∈ t,
        ((((x :: t).filter (fun b => a < b)).map (fun b => (a, b))).map g).sum
          = (if a < x then g (a, x) else 0)
            + (((t.filter (fun b => a < b)).map (fun b => (a, b))).map g).sum := by
      intro a _
      rw [List.filter_cons]
      by_cases hax : a < x
      · simp [hax]
      · simp [hax]
    rw [List.map_congr_left hper, List.sum_map_add, flatMap_map_sum]
  rw [hhead, htail, List.sum_map_add]
  ring

theorem sqlPairsIds_contrib_sum {P : Type} [LinearOrder P] (pd : P → P → ℝ)
    (hanti : ∀ a b, pd b a = -pd a b) :
    ∀ (l : List P), l.Nodup → ∀ p : P,
      ((sqlPairsIds l).map (fun ab => (if p = ab.1 then pd ab.1 ab.2 else 0)
          - (if p = ab.2 then pd ab.1 ab.2 else 0))).sum
        = if p ∈ l then ((l.erase p).map (fun q => pd p q)).sum else 0 := by
  intro l
  induction l with
  | nil => intro _ p; simp [sqlPairsIds]
  | cons x t ih =>
    intro hl p
    obtain ⟨hx, ht⟩ := List.nodup_cons.mp hl
    rw [sqlPairsIds_cons_sum, ih ht p]
    by_cases hp : p = x
    · subst hp
      have hpt : p ∉ t := hx
      have hmain : (t.map (fun b => (if p < b then
            ((if p = p then pd p b else 0) - (if p = b then pd p b else 0)) else 0)
          + (if b < p then
            ((if p = b then pd b p else 0) - (if p = p then pd b p else 0)) else 0))).sum
          = (t.map (fun q => pd p q)).sum := by
        apply congrArg
        apply List.map_congr_left
        intro b hb
        have hbp : p ≠ b := fun h => hpt (h ▸ hb)
        simp only [eq_self_iff_true, if_true, if_neg hbp]
        rcases lt_trichotomy p b with h | h | h
        · rw [if_pos h, if_neg (lt_asymm h)]
          ring
        · exact absurd h hbp
        · rw [if_neg (lt_asymm h), if_pos h, hanti b p]
          ring
      rw [hmain, if_neg hpt, if_pos (List.mem_cons_self p t), List.erase_cons_head,
        add_zero]
    · have hmain : (t.map (fun b => (if x < b then
            ((if p = x then pd x b else 0) - (if p = b then pd x b else 0)) else 0)
          + (if b < x then
            ((if p = b then pd b x else 0) - (if p = x then pd b x else 0)) else 0))).sum
          = (t.map (fun b => if p = b then pd p x else 0)).sum := by
        apply congrArg
        apply List.map_congr_left
        intro b _
        by_cases hpb : p = b
        · subst hpb
          simp only [if_neg hp, eq_self_iff_true, if_true]
          rcases lt_trichotomy x p with h | h | h
          · rw [if_pos h, if_neg (lt_asymm h), hanti x p]
            ring
          · exact absurd h.symm hp
          · rw [if_neg (lt_asymm h), if_pos h]
            ring
        · simp only [if_neg hp, if_neg hpb]
          simp
      rw [hmain, sum_ite_single (fun _ => pd p x) t ht p]
      by_cases hpt : p ∈ t
      · have herase : (x :: t).erase p = x :: t.erase p := by
          rw [List.erase_cons_tail]
          simp [Ne.symm hp]
        rw [if_pos hpt, if_pos hpt, if_pos (List.mem_cons_of_mem x hpt), herase,
          List.map_cons, List.sum_cons]
      · have hnotin : p ∉ x :: t := by simp [hp, hpt]
        rw [if_neg hpt, if_neg hpt, if_neg hnotin, add_zero]

theorem mem_sqlPairs {P : Type} [LinearOrder P] (es : List (P × ℝ))
    (ab : (P × ℝ) × (P × ℝ)) (h : ab ∈ sqlPairs es) : ab.1 ∈ es ∧ ab.2 ∈ es := by
  unfold sqlPairs at h
  rw [List.mem_flatMap] at h
  obtain ⟨a, ha, hb⟩ := h
  rw [List.mem_map] at hb
  obtain ⟨b, hbf, rfl⟩ := hb
  exact ⟨ha, (List.mem_filter.mp hbf).1⟩

theorem map_fst_filter {P : Type} (Q : P → Bool) :
    ∀ es : List (P × ℝ),
      (es.filter (fun e => Q e.1)).map Prod.fst = (es.map Prod.fst).filter Q := by
  intro es
  induction es with
  | nil => rfl
  | cons e t ih =>
    rw [List.filter_cons, List.map_cons, List.filter_cons]
    by_cases hQ : Q e.1 = true
    · rw [if_pos hQ, if_pos hQ, List.map_cons, ih]
    · rw [if_neg hQ, if_neg hQ, ih]

theorem flatMap_fst {P γ : Type} (G : P → List γ) :
    ∀ es : List (P × ℝ), es.flatMap (fun a => G a.1) = (es.map Prod.fst).flatMap G := by
  intro es
  induction es with
  | nil => rfl
  | cons e t ih => simp only [List.flatMap_cons, List.map_cons, ih]

theorem sqlPairs_map_fst {P : Type} [LinearOrder P] (es : List (P × ℝ)) :
    (sqlPairs es).map (fun ab => (ab.1.1, ab.2.1)) = sqlPairsIds (es.map Prod.fst) := by
  unfold sqlPairs sqlPairsIds
  rw [List.map_flatMap, ← flatMap_fst (fun x =>
    (((es.map Prod.fst).filter (fun b => x < b)).map (fun b => (x, b))))]
  apply congrArg
  funext a
  rw [List.map_map]
  rw [show ((fun ab => (ab.1.1, ab.2.1)) ∘ fun b => (a, b))
      = (fun y => (a.1, y)) ∘ (Prod.fst : P × ℝ → P) from rfl]
  rw [← List.map_map, map_fst_filter (fun y => decide (a.1 < y)) es]

/-- Pointwise characterisation of the procedure's pairwise loop body. -/
theorem applyPairE_apply {P : Type} [DecidableEq P] (cfg : EloCfg) (R : P → ℝ)
    (d : P → ℝ) (ab : (P × ℝ) × (P × ℝ)) (p : P) :
    applyPairE cfg R d ab p =
      d p + ((if p = ab.1.1 then
          cfg.kFactor * (scoreOf ab.1.2 ab.2.2 - expectedScore (R ab.1.1) (R ab.2.1)) else 0)
        - (if p = ab.2.1 then
          cfg.kFactor * (scoreOf ab.1.2 ab.2.2 - expectedScore (R ab.1.1) (R ab.2.1)) else 0)) := by
  simp only [applyPairE]
  by_cases hb : p = ab.2.1
  · rw [hb, Function.update_same, Function.update_apply]
    by_cases ha : ab.2.1 = ab.1.1
    · rw [if_pos ha, if_pos ha, if_pos rfl, ha]; ring
    · rw [if_neg ha, if_neg ha, if_pos rfl]; ring
  · rw [Function.update_noteq hb, Function.update_apply, if_neg hb]
    by_cases ha : p = ab.1.1
    · rw [if_pos ha, if_pos ha, ha]; ring
    · rw [if_neg ha, if_neg ha]; ring

/-- Under the primary-key constraint (no duplicated player in a match's
entries) the stored procedure's per-match deltas coincide with the
JavaScript `computeMatchDeltas` applied to the same participants, points
and current ratings. -/
theorem sqlMatchDeltas_eq_computeMatchDeltas {P : Type} [LinearOrder P]
    (cfg : EloCfg) (es : List (P × ℝ)) (R : P → ℝ)
    (hnd : (es.map Prod.fst).Nodup) :
    sqlMatchDeltas cfg es R
      = computeMatchDeltas cfg (es.map Prod.fst) (pointsMap es) R := by
  funext p
  have havg : avgEntries es = avgPoints (es.map Prod.fst) (pointsMap es) := by
    unfold avgEntries avgPoints
    rw [List.length_map, List.map_map,
      show es.map (pointsMap es ∘ Prod.fst) = es.map Prod.snd from
        List.map_congr_left (fun e he => pointsMap_eq es hnd e he)]
  unfold sqlMatchDeltas
  rw [foldl_add_contrib
    (fun d e => Function.update d e.1
      (d e.1 + cfg.kPerf * Real.tanh ((e.2 - avgEntries es) / cfg.scale)))
    (fun e q => if q = e.1
      then cfg.kPerf * Real.tanh ((e.2 - avgEntries es) / cfg.scale) else 0)
    (by
      intro d e q
      show Function.update d e.1
          (d e.1 + cfg.kPerf * Real.tanh ((e.2 - avgEntries es) / cfg.scale)) q
        = d q + (if q = e.1
            then cfg.kPerf * Real.tanh ((e.2 - avgEntries es) / cfg.scale) else 0)
      rw [Function.update_apply]
      split_ifs with h
      · rw [h]
      · ring) es _ p]
  rw [foldl_add_contrib (applyPairE cfg R)
    (fun ab q => (if q = ab.1.1 then
        cfg.kFactor * (scoreOf ab.1.2 ab.2.2 - expectedScore (R ab.1.1) (R ab.2.1)) else 0)
      - (if q = ab.2.1 then
        cfg.kFactor * (scoreOf ab.1.2 ab.2.2 - expectedScore (R ab.1.1) (R ab.2.1)) else 0))
    (fun d ab q => applyPairE_apply cfg R d ab q) (sqlPairs es) _ p]
  have hpairs : ((sqlPairs es).map (fun ab => (if p = ab.1.1 then
        cfg.kFactor * (scoreOf ab.1.2 ab.2.2 - expectedScore (R ab.1.1) (R ab.2.1)) else 0)
      - (if p = ab.2.1 then
        cfg.kFactor * (scoreOf ab.1.2 ab.2.2 - expectedScore (R ab.1.1) (R ab.2.1)) else 0))).sum
      = if p ∈ es.map Prod.fst then
          (((es.map Prod.fst).erase p).map
            (fun q => pairD cfg (pointsMap es) R p q)).sum
        else 0 := by
    have hcongr : (sqlPairs es).map (fun ab => (if p = ab.1.1 then
          cfg.kFactor * (scoreOf ab.1.2 ab.2.2 - expectedScore (R ab.1.1) (R ab.2.1)) else 0)
        - (if p = ab.2.1 then
          cfg.kFactor * (scoreOf ab.1.2 ab.2.2 - expectedScore (R ab.1.1) (R ab.2.1)) else 0))
        = (sqlPairs es).map ((fun xy => (if p = xy.1 then
            pairD cfg (pointsMap es) R xy.1 xy.2 else 0)
          - (if p = xy.2 then pairD cfg (pointsMap es) R xy.1 xy.2 else 0))
            ∘ (fun ab => (ab.1.1, ab.2.1))) := by
      apply List.map_congr_left
      intro ab hab
      obtain ⟨h1, h2⟩ := mem_sqlPairs es ab hab
      have e1 : ab.1.2 = pointsMap es ab.1.1 := (pointsMap_eq es hnd ab.1 h1).symm
      have e2 : ab.2.2 = pointsMap es ab.2.1 := (pointsMap_eq es hnd ab.2 h2).symm
      simp only [Function.comp_apply, pairD, e1, e2]
    rw [hcongr, ← List.map_map, sqlPairs_map_fst es,
      sqlPairsIds_contrib_sum (pairD cfg (pointsMap es) R)
        (pairD_antisymm cfg (pointsMap es) R) (es.map Prod.fst) hnd p]
  have hperf : (es.map (fun e => if p = e.1
        then cfg.kPerf * Real.tanh ((e.2 - avgEntries es) / cfg.scale) else 0)).sum
      = if p ∈ es.map Prod.fst
        then perfTerm cfg (avgPoints (es.map Prod.fst) (pointsMap es)) (pointsMap es) p
        else 0 := by
    have hcongr : es.map (fun e => if p = e.1
          then cfg.kPerf * Real.tanh ((e.2 - avgEntries es) / cfg.scale) else 0)
        = es.map ((fun x => if p = x
            then cfg.kPerf * Real.tanh ((pointsMap es x - avgEntries es) / cfg.scale) else 0)
          ∘ Prod.fst) := by
      apply List.map_congr_left
      intro e he
      simp only [Function.comp_apply, pointsMap_eq es hnd e he]
    rw [hcongr, ← List.map_map,
      sum_ite_single (fun x =>
        cfg.kPerf * Real.tanh ((pointsMap es x - avgEntries es) / cfg.scale))
      (es.map Prod.fst) hnd p]
    unfold perfTerm
    rw [tanhJS_eq_tanh, havg]
  rw [hpairs, hperf]
  by_cases hp : p ∈ es.map Prod.fst
  · rw [if_pos hp, if_pos hp,
      computeMatchDeltas_eq cfg (es.map Prod.fst) hnd (pointsMap es) R p, if_pos hp]
    ring
  · rw [if_neg hp, if_neg hp,
      computeMatchDeltas_not_mem cfg (es.map Prod.fst) (pointsMap es) R p hp]
    ring

/-! ### The per-match update/insert loop -/

theorem matchLoop_gen {P β : Type} [DecidableEq P] (δ : P → ℝ) (mk : P → ℝ → β) :
    ∀ (ids : List P), ids.Nodup → ∀ (R : P → ℝ) (rows : List β),
      ids.foldl (fun acc id =>
          (Function.update acc.1 id (acc.1 id + δ id),
            acc.2 ++ [mk id (acc.1 id + δ id)])) (R, rows)
        = (fun q => if q ∈ ids then R q + δ q else R q,
           rows ++ ids.map (fun id => mk id (R id + δ id))) := by
  intro ids
  induction ids with
  | nil =>
    intro _ R rows
    simp only [List.foldl_nil, List.map_nil, List.append_nil]
    refine Prod.ext ?_ rfl
    funext q
    simp
  | cons a t ih =>
    intro hnd R rows
    obtain ⟨ha, ht⟩ := List.nodup_cons.mp hnd
    rw [List.foldl_cons]
    rw [ih ht (Function.update R a (R a + δ a)) (rows ++ [mk a (R a + δ a)])]
    refine Prod.ext ?_ ?_
    · funext q
      by_cases hqa : q = a
      · subst hqa
        simp [ha, Function.update_same]
      · simp only [List.mem_cons, hqa, false_or, Function.update_noteq hqa]
    · show (rows ++ [mk a (R a + δ a)])
          ++ t.map (fun id => mk id (Function.update R a (R a + δ a) id + δ id))
        = rows ++ (a :: t).map (fun id => mk id (R id + δ id))
      rw [List.append_assoc, List.map_cons]
      have : t.map (fun id => mk id (Function.update R a (R a + δ a) id + δ id))
          = t.map (fun id => mk id (R id + δ id)) := by
        apply List.map_congr_left
        intro id hid
        have : id ≠ a := fun h => ha (h ▸ hid)
        rw [Function.update_noteq this]
      rw [this]
      rfl

theorem matchLoopJS_eq {M P : Type} [DecidableEq P] (mid : M) (δ : P → ℝ)
    (ids : List P) (hnd : ids.Nodup) (R : P → ℝ) (rows : List (Row M P)) :
    matchLoopJS mid δ (R, rows) ids
      = (fun q => if q ∈ ids then R q + δ q else R q,
         rows ++ ids.map (fun id => ⟨mid, id, R id + δ id, δ id⟩)) :=
  matchLoop_gen δ (fun id v => (⟨mid, id, v, δ id⟩ : Row M P)) ids hnd R rows

theorem matchLoopSQL_eq {M P : Type} [DecidableEq P] (mid : M) (stamp : ℤ)
    (δ : P → ℝ) (ids : List P) (hnd : ids.Nodup) (R : P → ℝ)
    (rows : List (SqlRow M P)) :
    matchLoopSQL mid stamp δ (R, rows) ids
      = (fun q => if q ∈ ids then R q + δ q else R q,
         rows ++ ids.map (fun id => ⟨mid, id, R id + δ id, δ id, stamp⟩)) :=
  matchLoop_gen δ (fun id v => (⟨mid, id, v, δ id, stamp⟩ : SqlRow M P)) ids hnd R rows

/-! ### Equivalence of the two replayers away from 1-entry matches -/

theorem jsReplay_eq_sqlReplay_aux {M P : Type} [LinearOrder P] (cfg : EloCfg) :
    ∀ (ms : List (MatchRec M P)),
      (∀ m ∈ ms, (m.entries.map Prod.fst).Nodup) →
      (∀ m ∈ ms, m.entries.length ≠ 1) →
      ∀ (R : P → ℝ) (rows : List (SqlRow M P)),
        ms.foldl (replayStepJS cfg) (R, rows.map dropStamp)
          = ((ms.foldl (sqlStep cfg) (R, rows)).1,
             ((ms.foldl (sqlStep cfg) (R, rows)).2).map dropStamp) := by
  intro ms
  induction ms with
  | nil => intro _ _ R rows; rfl
  | cons m t ih =>
    intro hnd hlen R rows
    have hndm : (m.entries.map Prod.fst).Nodup := hnd m (List.mem_cons_self m t)
    have hndt : ∀ m2 ∈ t, (m2.entries.map Prod.fst).Nodup :=
      fun m2 h2 => hnd m2 (List.mem_cons_of_mem m h2)
    have hlent : ∀ m2 ∈ t, m2.entries.length ≠ 1 :=
      fun m2 h2 => hlen m2 (List.mem_cons_of_mem m h2)
    rw [List.foldl_cons, List.foldl_cons]
    rcases Nat.lt_or_ge m.entries.length 2 with hl | hl
    · have h0 : m.entries.length = 0 := by
        have h1 : m.entries.length ≠ 1 := hlen m (List.mem_cons_self m t)
        omega
      have hes : m.entries = [] := List.length_eq_zero.mp h0
      have hjs : replayStepJS cfg (R, rows.map dropStamp) m = (R, rows.map dropStamp) := by
        unfold replayStepJS
        rw [if_pos (by rw [List.length_map]; omega)]
      have hsql : sqlStep cfg (R, rows) m = (R, rows) := by
        unfold sqlStep
        rw [hes]
        rfl
      rw [hjs, hsql]
      exact ih hndt hlent R rows
    · have hδ : sqlMatchDeltas cfg m.entries R
          = computeMatchDeltas cfg (m.entries.map Prod.fst) (pointsMap m.entries) R :=
        sqlMatchDeltas_eq_computeMatchDeltas cfg m.entries R hndm
      have hjs : replayStepJS cfg (R, rows.map dropStamp) m
          = (fun q => if q ∈ m.entries.map Prod.fst
                then R q + computeMatchDeltas cfg (m.entries.map Prod.fst)
                  (pointsMap m.entries) R q
                else R q,
             rows.map dropStamp ++ (m.entries.map Prod.fst).map (fun id =>
               ⟨m.id, id, R id + computeMatchDeltas cfg (m.entries.map Prod.fst)
                   (pointsMap m.entries) R id,
                 computeMatchDeltas cfg (m.entries.map Prod.fst)
                   (pointsMap m.entries) R id⟩)) := by
        unfold replayStepJS
        rw [if_neg (by rw [List.length_map]; omega)]
        exact matchLoopJS_eq m.id _ _ hndm R (rows.map dropStamp)
      have hsql : sqlStep cfg (R, rows) m
          = (fun q => if q ∈ m.entries.map Prod.fst
                then R q + computeMatchDeltas cfg (m.entries.map Prod.fst)
                  (pointsMap m.entries) R q
                else R q,
             rows ++ (m.entries.map Prod.fst).map (fun id =>
               ⟨m.id, id, R id + computeMatchDeltas cfg (m.entries.map Prod.fst)
                   (pointsMap m.entries) R id,
                 computeMatchDeltas cfg (m.entries.map Prod.fst)
                   (pointsMap m.entries) R id, m.matchDate⟩)) := by
        unfold sqlStep
        rw [hδ]
        exact matchLoopSQL_eq m.id m.matchDate _ _ hndm R rows
      rw [hjs, hsql]
      have hrows : rows.map dropStamp ++ (m.entries.map Prod.fst).map (fun id =>
            (⟨m.id, id, R id + computeMatchDeltas cfg (m.entries.map Prod.fst)
                (pointsMap m.entries) R id,
              computeMatchDeltas cfg (m.entries.map Prod.fst)
                (pointsMap m.entries) R id⟩ : Row M P))
          = (rows ++ (m.entries.map Prod.fst).map (fun id =>
              (⟨m.id, id, R id + computeMatchDeltas cfg (m.entries.map Prod.fst)
                  (pointsMap m.entries) R id,
                computeMatchDeltas cfg (m.entries.map Prod.fst)
                  (pointsMap m.entries) R id, m.matchDate⟩ : SqlRow M P))).map dropStamp := by
        simp only [List.map_append, List.map_map]
        rfl
      rw [hrows]
      exact ih hndt hlent _ _

/-- C6 amended: on any database state in which no match has exactly one
entry (and entries respect the primary key), the JS replayer and the stored
procedure produce the same final running-rating map and exactly the same
history rows (up to the procedure's extra timestamp column). -/
theorem C6_js_sql_equivalence {M P : Type} [LinearOrder P] (cfg : EloCfg)
    (ms : List (MatchRec M P))
    (hnd : ∀ m ∈ ms, (m.entries.map Prod.fst).Nodup)
    (hlen : ∀ m ∈ ms, m.entries.length ≠ 1) :
    (jsReplay cfg ms).1 = (sqlReplay cfg ms).1 ∧
      (jsReplay cfg ms).2 = ((sqlReplay cfg ms).2).map dropStamp := by
  have h := jsReplay_eq_sqlReplay_aux cfg ms hnd hlen (fun _ => INITIAL_RATING) []
  exact ⟨congrArg Prod.fst h, congrArg Prod.snd h⟩

/-- C6 witness: the two replayers agree on a concrete one-match database
with two entries. -/
theorem C6_js_sql_equivalence_witness :
    (∀ m ∈ [(⟨0, 5, 1, [(7, 40), (8, 30)]⟩ : MatchRec ℕ ℕ)],
        (m.entries.map Prod.fst).Nodup) ∧
      (∀ m ∈ [(⟨0, 5, 1, [(7, 40), (8, 30)]⟩ : MatchRec ℕ ℕ)],
        m.entries.length ≠ 1) ∧
      ((jsReplay ⟨24, 10, 20⟩ [(⟨0, 5, 1, [(7, 40), (8, 30)]⟩ : MatchRec ℕ ℕ)]).1
          = (sqlReplay ⟨24, 10, 20⟩ [(⟨0, 5, 1, [(7, 40), (8, 30)]⟩ : MatchRec ℕ ℕ)]).1 ∧
        (jsReplay ⟨24, 10, 20⟩ [(⟨0, 5, 1, [(7, 40), (8, 30)]⟩ : MatchRec ℕ ℕ)]).2
          = ((sqlReplay ⟨24, 10, 20⟩
              [(⟨0, 5, 1, [(7, 40), (8, 30)]⟩ : MatchRec ℕ ℕ)]).2).map dropStamp) :=
  ⟨by decide, by decide,
    C6_js_sql_equivalence ⟨24, 10, 20⟩
      [(⟨0, 5, 1, [(7, 40), (8, 30)]⟩ : MatchRec ℕ ℕ)] (by decide) (by decide)⟩

/-- C6 counterexample: on a database whose single match has exactly one
entry, the JS replayer stores no history rows while the stored procedure
stores one (player 7, delta 0, rating 1000) — the two implementations do
not produce the same rows. -/
theorem C6_counterexample :
    (jsReplay ⟨24, 10, 20⟩ [(⟨0, 5, 1, [(7, 30)]⟩ : MatchRec ℕ ℕ)]).2 = [] ∧
      ((sqlReplay ⟨24, 10, 20⟩ [(⟨0, 5, 1, [(7, 30)]⟩ : MatchRec ℕ ℕ)]).2).map dropStamp
        = [⟨0, 7, 1000, 0⟩] ∧
      ([] : List (Row ℕ ℕ)) ≠ [(⟨0, 7, 1000, 0⟩ : Row ℕ ℕ)] := by
  refine ⟨rfl, ?_, by simp⟩
  have hδ : sqlMatchDeltas ⟨24, 10, 20⟩ [((7:ℕ), (30:ℝ))] (fun _ => INITIAL_RATING) 7
      = 0 := by
    unfold sqlMatchDeltas sqlPairs avgEntries
    norm_num
  unfold sqlReplay sqlStep
  rw [List.foldl_cons, List.foldl_nil]
  rw [show ((⟨0, 5, 1, [(7, 30)]⟩ : MatchRec ℕ ℕ)).entries.map Prod.fst = [7] from rfl]
  rw [matchLoopSQL_eq 0 5 _ [7] (by decide) _ []]
  simp only [List.map_cons, List.map_nil, List.nil_append, dropStamp]
  rw [hδ]
  norm_num [INITIAL_RATING]

/-- C5: the JS replay loop skips a 1-entry match (no rows, ratings
untouched), but the stored procedure `compute_rating_history` — documented
as "the same algorithm as the original JavaScript implementation" — does
not skip it: it inserts a rating-history row for the lone player with
delta 0. -/
theorem C5_one_entry_divergence :
    (jsReplay ⟨24, 10, 20⟩ [(⟨3, 4, 2, [(9, 50)]⟩ : MatchRec ℕ ℕ)]).2 = [] ∧
      (jsReplay ⟨24, 10, 20⟩ [(⟨3, 4, 2, [(9, 50)]⟩ : MatchRec ℕ ℕ)]).1
        = (fun _ => INITIAL_RATING) ∧
      ((sqlReplay ⟨24, 10, 20⟩ [(⟨3, 4, 2, [(9, 50)]⟩ : MatchRec ℕ ℕ)]).2).map
          (fun r => (r.matchId, r.player, r.delta))
        = [(3, 9, 0)] := by
  refine ⟨rfl, rfl, ?_⟩
  have hδ : sqlMatchDeltas ⟨24, 10, 20⟩ [((9:ℕ), (50:ℝ))] (fun _ => INITIAL_RATING) 9
      = 0 := by
    unfold sqlMatchDeltas sqlPairs avgEntries
    norm_num
  unfold sqlReplay sqlStep
  rw [List.foldl_cons, List.foldl_nil]
  rw [show ((⟨3, 4, 2, [(9, 50)]⟩ : MatchRec ℕ ℕ)).entries.map Prod.fst = [9] from rfl]
  rw [matchLoopSQL_eq 3 4 _ [9] (by decide) _ []]
  simp only [List.map_cons, List.map_nil, List.nil_append]
  rw [hδ]

/-! ### C1: the per-player rating-history invariant -/

/-- Spec-side fold for the invariant of §3 of the spec: run the Calculator
over every match, thread the global running ratings, and for exactly those
matches that contain player `p` emit the pair (delta for p, p's previous
running rating — threaded separately from the initial default 1000 — plus
that delta). -/
noncomputable def specPlayerFold {M P : Type} [DecidableEq P] (cfg : EloCfg) (p : P) :
    List (MatchRec M P) → (P → ℝ) → ℝ → List (ℝ × ℝ)
  | [], _, _ => []
  | m :: rest, R, r =>
    let ids := m.entries.map Prod.fst
    let δ := computeMatchDeltas cfg ids (pointsMap m.entries) R
    let R2 := fun q => if q ∈ ids then R q + δ q else R q
    if p ∈ ids then (δ p, r + δ p) :: specPlayerFold cfg p rest R2 (r + δ p)
    else specPlayerFold cfg p rest R2 r

theorem specPlayerFold_nil {M P : Type} [DecidableEq P] (cfg : EloCfg) (p : P)
    (R : P → ℝ) (r : ℝ) :
    specPlayerFold cfg p ([] : List (MatchRec M P)) R r = [] := rfl

theorem specPlayerFold_cons {M P : Type} [DecidableEq P] (cfg : EloCfg) (p : P)
    (m : MatchRec M P) (rest : List (MatchRec M P)) (R : P → ℝ) (r : ℝ) :
    specPlayerFold cfg p (m :: rest) R r
      = if p ∈ m.entries.map Prod.fst
        then (computeMatchDeltas cfg (m.entries.map Prod.fst) (pointsMap m.entries) R p,
            r + computeMatchDeltas cfg (m.entries.map Prod.fst) (pointsMap m.entries) R p)
          :: specPlayerFold cfg p rest
            (fun q => if q ∈ m.entries.map Prod.fst
              then R q + computeMatchDeltas cfg (m.entries.map Prod.fst)
                (pointsMap m.entries) R q
              else R q)
            (r + computeMatchDeltas cfg (m.entries.map Prod.fst) (pointsMap m.entries) R p)
        else specPlayerFold cfg p rest
          (fun q => if q ∈ m.entries.map Prod.fst
            then R q + computeMatchDeltas cfg (m.entries.map Prod.fst)
              (pointsMap m.entries) R q
            else R q) r := rfl

theorem filter_player_map_mk_not_mem {M P : Type} [DecidableEq P] (mid : M)
    (stamp : ℤ) (R δ : P → ℝ) (p : P) :
    ∀ ids : List P, p ∉ ids →
      ((ids.map (fun id =>
          (⟨mid, id, R id + δ id, δ id, stamp⟩ : SqlRow M P))).filter
        (fun r => decide (r.player = p))) = [] := by
  intro ids
  induction ids with
  | nil => intro _; rfl
  | cons a t ih =>
    intro hp
    rw [List.map_cons, List.filter_cons]
    have hap : ¬(a = p) := fun h => hp (h ▸ List.mem_cons_self a t)
    rw [if_neg (by simpa using hap)]
    exact ih (fun h => hp (List.mem_cons_of_mem a h))

theorem filter_player_map_mk {M P : Type} [DecidableEq P] (mid : M)
    (stamp : ℤ) (R δ : P → ℝ) (p : P) :
    ∀ ids : List P, ids.Nodup →
      (((ids.map (fun id =>
            (⟨mid, id, R id + δ id, δ id, stamp⟩ : SqlRow M P))).filter
          (fun r => decide (r.player = p))).map (fun r => (r.delta, r.ratingAfter)))
        = if p ∈ ids then [(δ p, R p + δ p)] else [] := by
  intro ids
  induction ids with
  | nil => intro _; rfl
  | cons a t ih =>
    intro hnd
    obtain ⟨ha, ht⟩ := List.nodup_cons.mp hnd
    rw [List.map_cons, List.filter_cons]
    by_cases hap : a = p
    · subst hap
      rw [if_pos (by simp)]
      rw [filter_player_map_mk_not_mem mid stamp R δ a t ha]
      rw [if_pos (List.mem_cons_self a t)]
      rfl
    · rw [if_neg (by simpa using hap), ih ht]
      have hpa : p ≠ a := Ne.symm hap
      simp [List.mem_cons, hpa]

theorem sqlReplay_player_history_aux {M P : Type} [LinearOrder P] (cfg : EloCfg)
    (p : P) :
    ∀ (ms : List (MatchRec M P)),
      (∀ m ∈ ms, (m.entries.map Prod.fst).Nodup) →
      ∀ (R : P → ℝ) (acc : List (SqlRow M P)),
        (((ms.foldl (sqlStep cfg) (R, acc)).2).filter
            (fun r => decide (r.player = p))).map (fun r => (r.delta, r.ratingAfter))
          = ((acc.filter (fun r => decide (r.player = p))).map
              (fun r => (r.delta, r.ratingAfter)))
            ++ specPlayerFold cfg p ms R (R p) := by
  intro ms
  induction ms with
  | nil =>
    intro _ R acc
    rw [List.foldl_nil, specPlayerFold_nil, List.append_nil]
  | cons m t ih =>
    intro hnd R acc
    have hndm : (m.entries.map Prod.fst).Nodup := hnd m (List.mem_cons_self m t)
    have hndt : ∀ m2 ∈ t, (m2.entries.map Prod.fst).Nodup :=
      fun m2 h2 => hnd m2 (List.mem_cons_of_mem m h2)
    rw [List.foldl_cons]
    set c := computeMatchDeltas cfg (m.entries.map Prod.fst) (pointsMap m.entries) R
      with hc
    have hstep : sqlStep cfg (R, acc) m
        = (fun q => if q ∈ m.entries.map Prod.fst then R q + c q else R q,
           acc ++ (m.entries.map Prod.fst).map (fun id =>
             ⟨m.id, id, R id + c id, c id, m.matchDate⟩)) := by
      unfold sqlStep
      rw [sqlMatchDeltas_eq_computeMatchDeltas cfg m.entries R hndm, ← hc]
      exact matchLoopSQL_eq m.id m.matchDate c _ hndm R acc
    rw [hstep, ih hndt, List.filter_append, List.map_append,
      filter_player_map_mk m.id m.matchDate R c p _ hndm, List.append_assoc]
    apply congrArg
    rw [specPlayerFold_cons, ← hc]
    by_cases hp : p ∈ m.entries.map Prod.fst
    · rw [if_pos hp, if_pos hp, if_pos hp, List.singleton_append]
    · rw [if_neg hp, if_neg hp, if_neg hp, List.nil_append]

/-- C1: for every database state (entries respecting the primary key) and
every player `p`, the per-player subsequence of (delta, rating_after) rows
stored by the stored-procedure replay equals the spec-side fold of the
Calculator over exactly those matches that contain `p`, threading `p`'s
running rating from the initial default 1000. -/
theorem C1_replay_history_invariant {M P : Type} [LinearOrder P] (cfg : EloCfg)
    (ms : List (MatchRec M P))
    (hnd : ∀ m ∈ ms, (m.entries.map Prod.fst).Nodup) (p : P) :
    (((sqlReplay cfg ms).2).filter (fun r => decide (r.player = p))).map
        (fun r => (r.delta, r.ratingAfter))
      = specPlayerFold cfg p ms (fun _ => INITIAL_RATING) INITIAL_RATING :=
  sqlReplay_player_history_aux cfg p ms hnd (fun _ => INITIAL_RATING) []

/-- C1 witness: the invariant instantiated on a concrete two-player match. -/
theorem C1_replay_history_invariant_witness :
    (∀ m ∈ [(⟨0, 5, 1, [(7, 40), (8, 30)]⟩ : MatchRec ℕ ℕ)],
        (m.entries.map Prod.fst).Nodup) ∧
      (((sqlReplay ⟨24, 10, 20⟩
            [(⟨0, 5, 1, [(7, 40), (8, 30)]⟩ : MatchRec ℕ ℕ)]).2).filter
          (fun r => decide (r.player = 7))).map (fun r => (r.delta, r.ratingAfter))
        = specPlayerFold ⟨24, 10, 20⟩ 7
            [(⟨0, 5, 1, [(7, 40), (8, 30)]⟩ : MatchRec ℕ ℕ)]
            (fun _ => INITIAL_RATING) INITIAL_RATING :=
  ⟨by decide,
    C1_replay_history_invariant ⟨24, 10, 20⟩
      [(⟨0, 5, 1, [(7, 40), (8, 30)]⟩ : MatchRec ℕ ℕ)] (by decide) 7⟩

/-! ### C8: how history rows are timestamped -/

/-- The `created_at` column default of `rating_history`
(`created_at timestamptz not null default now()`, part_006 lines 279-286)
as applied to the JS endpoint's insert, which supplies no `created_at`
(part_002 lines 101-115): every row is stamped with the wall-clock `now`. -/
noncomputable def jsInsert {M P : Type} (now : ℤ) (rows : List (Row M P)) :
    List (SqlRow M P) :=
  rows.map (fun r => ⟨r.matchId, r.player, r.ratingAfter, r.delta, now⟩)

theorem matchLoopSQL_mem_forall {M P : Type} [DecidableEq P] (mid : M)
    (stamp : ℤ) (δ : P → ℝ) (Q : SqlRow M P → Prop)
    (hmk : ∀ id v, Q ⟨mid, id, v, δ id, stamp⟩) :
    ∀ (ids : List P) (st : (P → ℝ) × List (SqlRow M P)),
      (∀ r ∈ st.2, Q r) → ∀ r ∈ (matchLoopSQL mid stamp δ st ids).2, Q r := by
  intro ids
  induction ids with
  | nil => intro st hst r hr; exact hst r hr
  | cons a t ih =>
    intro st hst r hr
    refine ih _ ?_ r hr
    intro r2 hr2
    rcases List.mem_append.mp hr2 with h | h
    · exact hst r2 h
    · rw [List.mem_singleton.mp h]
      exact hmk a (st.1 a + δ a)

theorem sqlReplay_stamp_aux {M P : Type} [LinearOrder P] (cfg : EloCfg)
    (Q : SqlRow M P → Prop) :
    ∀ (ms : List (MatchRec M P)),
      (∀ m ∈ ms, ∀ id v d, Q ⟨m.id, id, v, d, m.matchDate⟩) →
      ∀ (R : P → ℝ) (acc : List (SqlRow M P)), (∀ r ∈ acc, Q r) →
        ∀ r ∈ (ms.foldl (sqlStep cfg) (R, acc)).2, Q r := by
  intro ms
  induction ms with
  | nil => intro _ R acc hacc r hr; exact hacc r hr
  | cons m t ih =>
    intro hQ R acc hacc r hr
    rw [List.foldl_cons] at hr
    refine ih (fun m2 h2 => hQ m2 (List.mem_cons_of_mem m h2)) _ _ ?_ r hr
    intro r2 hr2
    exact matchLoopSQL_mem_forall m.id m.matchDate _ Q
      (fun id v => hQ m (List.mem_cons_self m t) id v _) _ (R, acc) hacc r2 hr2

/-- C8 amended, stored-procedure side: every rating-history row written by
`compute_rating_history` is stamped with its own match's `match_date`, never
with the wall-clock time of the replay. -/
theorem C8_sql_rows_stamped_with_match_date {M P : Type} [LinearOrder P]
    (cfg : EloCfg) (ms : List (MatchRec M P)) :
    ∀ r ∈ (sqlReplay cfg ms).2, ∃ m ∈ ms, m.id = r.matchId ∧ r.stamp = m.matchDate := by
  intro r hr
  refine sqlReplay_stamp_aux cfg
    (fun r => ∃ m ∈ ms, m.id = r.matchId ∧ r.stamp = m.matchDate) ms
    ?_ (fun _ => INITIAL_RATING) [] (by intro r2 hr2; cases hr2) r hr
  intro m hm id v d
  exact ⟨m, hm, rfl, rfl⟩

/-- C8 witness: the stored procedure's single row for a concrete 1-entry
match carries the match's date 8, not any insertion-time clock. -/
theorem C8_sql_rows_stamped_witness :
    ((⟨11, 5, 1000, 0, 8⟩ : SqlRow ℕ ℕ)
        ∈ (sqlReplay ⟨24, 10, 20⟩ [(⟨11, 8, 6, [(5, 20)]⟩ : MatchRec ℕ ℕ)]).2) ∧
      ∃ m ∈ [(⟨11, 8, 6, [(5, 20)]⟩ : MatchRec ℕ ℕ)],
        m.id = (⟨11, 5, 1000, 0, 8⟩ : SqlRow ℕ ℕ).matchId
          ∧ (⟨11, 5, 1000, 0, 8⟩ : SqlRow ℕ ℕ).stamp = m.matchDate := by
  have hδ : sqlMatchDeltas ⟨24, 10, 20⟩ [((5:ℕ), (20:ℝ))] (fun _ => INITIAL_RATING) 5
      = 0 := by
    unfold sqlMatchDeltas sqlPairs avgEntries
    norm_num
  have hrows : (sqlReplay ⟨24, 10, 20⟩ [(⟨11, 8, 6, [(5, 20)]⟩ : MatchRec ℕ ℕ)]).2
      = [⟨11, 5, 1000, 0, 8⟩] := by
    unfold sqlReplay sqlStep
    rw [List.foldl_cons, List.foldl_nil]
    rw [show ((⟨11, 8, 6, [(5, 20)]⟩ : MatchRec ℕ ℕ)).entries.map Prod.fst = [5] from rfl]
    rw [matchLoopSQL_eq 11 8 _ [5] (by decide) _ []]
    simp only [List.map_cons, List.map_nil, List.nil_append]
    rw [hδ]
    norm_num [INITIAL_RATING]
  have hmem : (⟨11, 5, 1000, 0, 8⟩ : SqlRow ℕ ℕ)
      ∈ (sqlReplay ⟨24, 10, 20⟩ [(⟨11, 8, 6, [(5, 20)]⟩ : MatchRec ℕ ℕ)]).2 := by
    rw [hrows]
    exact List.mem_singleton.mpr rfl
  exact ⟨hmem, C8_sql_rows_stamped_with_match_date ⟨24, 10, 20⟩
    [(⟨11, 8, 6, [(5, 20)]⟩ : MatchRec ℕ ℕ)] _ hmem⟩

/-- C8 counterexample: the rows of the JS endpoint's replay carry no
timestamp, so the table default stamps them with the wall-clock `now`
(modelled by `jsInsert`): with `now = 99`, both rows of a match dated 5 are
stamped 99 ≠ 5.  The claim "every rating-history record written by the
replay is stamped with the match's own date" is false for the JS replayer. -/
theorem C8_counterexample :
    ((jsInsert 99 (jsReplay ⟨24, 10, 20⟩
          [(⟨0, 5, 1, [(7, 40), (8, 30)]⟩ : MatchRec ℕ ℕ)]).2).map
        (fun r => r.stamp)) = [99, 99] ∧ (99 : ℤ) ≠ 5 := by
  constructor
  · unfold jsReplay replayStepJS
    rw [List.foldl_cons, List.foldl_nil]
    rw [show ((⟨0, 5, 1, [(7, 40), (8, 30)]⟩ : MatchRec ℕ ℕ)).entries.map Prod.fst
      = [7, 8] from rfl]
    rw [if_neg (by norm_num)]
    rw [matchLoopJS_eq 0 _ [7, 8] (by decide) _ []]
    rfl
  · norm_num

/-! ### C7: the `v_player_current_rating` view -/

section ViewDefs

variable {M P : Type}

/-- Creation timestamp of the match with the given id (`mat` CTE lookup of
the view, part_006 lines 363-370; 0 when the id resolves to no match, which
the foreign key rules out). -/
def matchCreatedAt [DecidableEq M] (ms : List (MatchRec M P)) (mid : M) : ℤ :=
  ((ms.find? (fun m => decide (m.id = mid))).map (fun m => m.createdAt)).getD 0

/-- Match date of the match with the given id. -/
def matchDateOf [DecidableEq M] (ms : List (MatchRec M P)) (mid : M) : ℤ :=
  ((ms.find? (fun m => decide (m.id = mid))).map (fun m => m.matchDate)).getD 0

/-- One step of taking the maximum-key element (`ORDER BY ... DESC LIMIT 1`,
keeping the earlier row on key ties). -/
def argmaxStep {α K : Type} [LinearOrder K] (key : α → K) (acc : Option α)
    (x : α) : Option α :=
  match acc with
  | none => some x
  | some b => if key b < key x then some x else some b

/-- The row selected by `ORDER BY ... DESC LIMIT 1` over the list. -/
def argmaxKey {α K : Type} [LinearOrder K] (key : α → K) (l : List α) : Option α :=
  l.foldl (argmaxStep key) none

/-- The second `v_player_current_rating` view (part_006 lines 363-384): for
player `p`, take their `rating_history` rows, order by the rank of the row's
match — `row_number() OVER (ORDER BY created_at ASC)` over `matches`, which
for distinct creation timestamps is exactly the match's `created_at` order —
descending, ties by the row's own `created_at` (`stamp`) descending, and
keep the first.  `COALESCE(rating_after, NULL)` is just `rating_after`:
a player with no rows gets no rating (`none`). -/
def vPlayerCurrentRating [DecidableEq M] [DecidableEq P]
    (ms : List (MatchRec M P)) (hist : List (SqlRow M P)) (p : P) : Option ℝ :=
  (argmaxKey (fun r => toLex (matchCreatedAt ms r.matchId, r.stamp))
    (hist.filter (fun r => decide (r.player = p)))).map (fun r => r.ratingAfter)

/-- Modelled from the spec: the `rating_after` of the player's most recent
history record in chronological match order (match date ascending, then
match creation timestamp ascending; record stamp as final tiebreak), when
one exists. -/
def specMostRecentRating [DecidableEq M] [DecidableEq P]
    (ms : List (MatchRec M P)) (hist : List (SqlRow M P)) (p : P) : Option ℝ :=
  (argmaxKey (fun r => toLex (toLex (matchDateOf ms r.matchId,
      matchCreatedAt ms r.matchId), r.stamp))
    (hist.filter (fun r => decide (r.player = p)))).map (fun r => r.ratingAfter)

/-- Modelled from the spec: current rating of a player = most recent
`rating_after`, or the default initial rating 1000 when they have none. -/
noncomputable def specCurrentRating [DecidableEq M] [DecidableEq P]
    (ms : List (MatchRec M P)) (hist : List (SqlRow M P)) (p : P) : ℝ :=
  (specMostRecentRating ms hist p).getD INITIAL_RATING

end ViewDefs

theorem argmaxKey_fold_congr {α K1 K2 : Type} [LinearOrder K1] [LinearOrder K2]
    (k1 : α → K1) (k2 : α → K2) :
    ∀ (l : List α) (acc : Option α),
      (∀ a, (a ∈ l ∨ acc = some a) → ∀ b, (b ∈ l ∨ acc = some b) →
        (k1 a < k1 b ↔ k2 a < k2 b)) →
      l.foldl (argmaxStep k1) acc = l.foldl (argmaxStep k2) acc := by
  intro l
  induction l with
  | nil => intro acc _; rfl
  | cons x t ih =>
    intro acc h
    rw [List.foldl_cons, List.foldl_cons]
    have hstep : argmaxStep k1 acc x = argmaxStep k2 acc x := by
      cases acc with
      | none => rfl
      | some b =>
        have hiff := h b (Or.inr rfl) x (Or.inl (List.mem_cons_self x t))
        show (if k1 b < k1 x then some x else some b)
          = (if k2 b < k2 x then some x else some b)
        by_cases hlt : k1 b < k1 x
        · rw [if_pos hlt, if_pos (hiff.mp hlt)]
        · rw [if_neg hlt, if_neg (fun hc => hlt (hiff.mpr hc))]
    rw [hstep]
    apply ih
    have hlift : ∀ y, (y ∈ t ∨ argmaxStep k2 acc x = some y) →
        (y ∈ x :: t ∨ acc = some y) := by
      intro y hy
      rcases hy with hy | hy
      · exact Or.inl (List.mem_cons_of_mem x hy)
      · cases acc with
        | none =>
          left
          have : x = y := Option.some_inj.mp hy
          rw [← this]
          exact List.mem_cons_self x t
        | some b =>
          have hy2 : (if k2 b < k2 x then some x else some b) = some y := hy
          by_cases hlt : k2 b < k2 x
          · rw [if_pos hlt] at hy2
            left
            have : x = y := Option.some_inj.mp hy2
            rw [← this]
            exact List.mem_cons_self x t
          · rw [if_neg hlt] at hy2
            exact Or.inr hy2
    exact fun a ha b hb => h a (hlift a ha) b (hlift b hb)

theorem argmaxKey_congr {α K1 K2 : Type} [LinearOrder K1] [LinearOrder K2]
    (k1 : α → K1) (k2 : α → K2) (l : List α)
    (h : ∀ a ∈ l, ∀ b ∈ l, (k1 a < k1 b ↔ k2 a < k2 b)) :
    argmaxKey k1 l = argmaxKey k2 l := by
  unfold argmaxKey
  apply argmaxKey_fold_congr
  intro a ha b hb
  rcases ha with ha | ha
  · rcases hb with hb | hb
    · exact h a ha b hb
    · cases hb
  · cases ha

theorem match_lookup {M P : Type} [DecidableEq M] (ms : List (MatchRec M P))
    (mid : M) (h : ∃ m ∈ ms, m.id = mid) :
    ∃ ma ∈ ms, matchCreatedAt ms mid = ma.createdAt
      ∧ matchDateOf ms mid = ma.matchDate := by
  obtain ⟨m, hm, hmid⟩ := h
  have hsome : (ms.find? (fun m => decide (m.id = mid))).isSome :=
    List.find?_isSome.mpr ⟨m, hm, by simp [hmid]⟩
  obtain ⟨ma, hfind⟩ := Option.isSome_iff_exists.mp hsome
  refine ⟨ma, List.mem_of_find?_eq_some hfind, ?_, ?_⟩
  · unfold matchCreatedAt
    rw [hfind]
    rfl
  · unfold matchDateOf
    rw [hfind]
    rfl

/-- C7 amended: provided the matches' creation timestamps are distinct and
their creation order agrees with the chronological (match date, creation
timestamp) order, the view returns exactly the `rating_after` of the
player's most recent history record in chronological order — and `none`
(no rating), not 1000, for a player with no history records. -/
theorem C7_view_amended {M P : Type} [DecidableEq M] [DecidableEq P]
    (ms : List (MatchRec M P)) (hist : List (SqlRow M P)) (p : P)
    (_hdist : (ms.map (fun m => m.createdAt)).Nodup)
    (hres : ∀ r ∈ hist, ∃ m ∈ ms, m.id = r.matchId)
    (hagree : ∀ m1 ∈ ms, ∀ m2 ∈ ms, (m1.createdAt < m2.createdAt ↔
        toLex (m1.matchDate, m1.createdAt) < toLex (m2.matchDate, m2.createdAt))) :
    vPlayerCurrentRating ms hist p = specMostRecentRating ms hist p := by
  unfold vPlayerCurrentRating specMostRecentRating
  refine congrArg _ (argmaxKey_congr _ _ _ ?_)
  intro a ha b hb
  have haH : a ∈ hist := (List.mem_filter.mp ha).1
  have hbH : b ∈ hist := (List.mem_filter.mp hb).1
  obtain ⟨ma, hmaM, hmaC, hmaD⟩ := match_lookup ms a.matchId (hres a haH)
  obtain ⟨mb, hmbM, hmbC, hmbD⟩ := match_lookup ms b.matchId (hres b hbH)
  rw [Prod.Lex.lt_iff, Prod.Lex.lt_iff]
  have hCC : matchCreatedAt ms a.matchId < matchCreatedAt ms b.matchId ↔
      toLex (matchDateOf ms a.matchId, matchCreatedAt ms a.matchId)
        < toLex (matchDateOf ms b.matchId, matchCreatedAt ms b.matchId) := by
    rw [hmaC, hmaD, hmbC, hmbD]
    exact hagree ma hmaM mb hmbM
  have hEE : matchCreatedAt ms a.matchId = matchCreatedAt ms b.matchId ↔
      toLex (matchDateOf ms a.matchId, matchCreatedAt ms a.matchId)
        = toLex (matchDateOf ms b.matchId, matchCreatedAt ms b.matchId) := by
    constructor
    · intro heq
      by_contra hne
      rcases lt_or_gt_of_ne hne with hlt | hgt
      · have := hCC.mpr hlt
        rw [heq] at this
        exact lt_irrefl _ this
      · have hCC2 : matchCreatedAt ms b.matchId < matchCreatedAt ms a.matchId ↔
            toLex (matchDateOf ms b.matchId, matchCreatedAt ms b.matchId)
              < toLex (matchDateOf ms a.matchId, matchCreatedAt ms a.matchId) := by
          rw [hmaC, hmaD, hmbC, hmbD]
          exact hagree mb hmbM ma hmaM
        have := hCC2.mpr hgt
        rw [heq] at this
        exact lt_irrefl _ this
    · intro heq
      have : (matchDateOf ms a.matchId, matchCreatedAt ms a.matchId)
          = (matchDateOf ms b.matchId, matchCreatedAt ms b.matchId) :=
        toLex.injective heq
      exact (Prod.mk.injEq _ _ _ _ ▸ this).2
  constructor
  · rintro (h1 | ⟨h1, h2⟩)
    · exact Or.inl (hCC.mp h1)
    · exact Or.inr ⟨hEE.mp h1, h2⟩
  · rintro (h1 | ⟨h1, h2⟩)
    · exact Or.inl (hCC.mpr h1)
    · exact Or.inr ⟨hEE.mpr h1, h2⟩

/-- C7 witness: amended theorem applied to a concrete one-match state whose
creation order agrees with its chronological order. -/
theorem C7_view_amended_witness :
    (([(⟨0, 3, 1, []⟩ : MatchRec ℕ ℕ)].map (fun m => m.createdAt)).Nodup) ∧
      (∀ r ∈ [(⟨0, 7, 1111, 0, 3⟩ : SqlRow ℕ ℕ)],
        ∃ m ∈ [(⟨0, 3, 1, []⟩ : MatchRec ℕ ℕ)], m.id = r.matchId) ∧
      (∀ m1 ∈ [(⟨0, 3, 1, []⟩ : MatchRec ℕ ℕ)],
        ∀ m2 ∈ [(⟨0, 3, 1, []⟩ : MatchRec ℕ ℕ)],
          (m1.createdAt < m2.createdAt ↔
            toLex (m1.matchDate, m1.createdAt) < toLex (m2.matchDate, m2.createdAt))) ∧
      vPlayerCurrentRating [(⟨0, 3, 1, []⟩ : MatchRec ℕ ℕ)]
          [(⟨0, 7, 1111, 0, 3⟩ : SqlRow ℕ ℕ)] 7
        = specMostRecentRating [(⟨0, 3, 1, []⟩ : MatchRec ℕ ℕ)]
            [(⟨0, 7, 1111, 0, 3⟩ : SqlRow ℕ ℕ)] 7 := by
  have h1 : (([(⟨0, 3, 1, []⟩ : MatchRec ℕ ℕ)].map (fun m => m.createdAt)).Nodup) := by
    decide
  have h2 : ∀ r ∈ [(⟨0, 7, 1111, 0, 3⟩ : SqlRow ℕ ℕ)],
      ∃ m ∈ [(⟨0, 3, 1, []⟩ : MatchRec ℕ ℕ)], m.id = r.matchId := by
    intro r hr
    rw [List.mem_singleton.mp hr]
    exact ⟨⟨0, 3, 1, []⟩, List.mem_cons_self _ _, rfl⟩
  have h3 : ∀ m1 ∈ [(⟨0, 3, 1, []⟩ : MatchRec ℕ ℕ)],
      ∀ m2 ∈ [(⟨0, 3, 1, []⟩ : MatchRec ℕ ℕ)],
        (m1.createdAt < m2.createdAt ↔
          toLex (m1.matchDate, m1.createdAt) < toLex (m2.matchDate, m2.createdAt)) := by
    intro m1 hm1 m2 hm2
    rw [List.mem_singleton.mp hm1, List.mem_singleton.mp hm2]
    constructor
    · intro h
      exact absurd h (lt_irrefl _)
    · intro h
      exact absurd h (lt_irrefl _)
  exact ⟨h1, h2, h3, C7_view_amended _ _ 7 h1 h2 h3⟩

/-- C7 counterexample: the view does not implement the claim.  With match 0
dated 10 but created first and match 1 dated 5 but created second, the
chronologically most recent record of player 7 is the one of match 0
(rating 1111), but the view — ranking by creation timestamp only — returns
the record of match 1 (rating 2222).  And for a player with no history the
view returns no rating at all (`none`), not the claimed default 1000. -/
theorem C7_counterexample :
    vPlayerCurrentRating
        [(⟨0, 10, 1, []⟩ : MatchRec ℕ ℕ), ⟨1, 5, 2, []⟩]
        [(⟨0, 7, 1111, 0, 10⟩ : SqlRow ℕ ℕ), ⟨1, 7, 2222, 0, 5⟩] 7
      = some 2222 ∧
    specCurrentRating
        [(⟨0, 10, 1, []⟩ : MatchRec ℕ ℕ), ⟨1, 5, 2, []⟩]
        [(⟨0, 7, 1111, 0, 10⟩ : SqlRow ℕ ℕ), ⟨1, 7, 2222, 0, 5⟩] 7
      = 1111 ∧
    (some (2222 : ℝ) ≠ some (1111 : ℝ)) ∧
    vPlayerCurrentRating [(⟨0, 10, 1, []⟩ : MatchRec ℕ ℕ), ⟨1, 5, 2, []⟩]
        ([] : List (SqlRow ℕ ℕ)) 7
      = none ∧
    ((none : Option ℝ) ≠ some 1000) := by
  refine ⟨?_, ?_, by simp, rfl, by simp⟩
  · have hlt : (toLex ((1:ℤ), (10:ℤ)) : ℤ ×ₗ ℤ) < toLex (2, 5) := by
      rw [Prod.Lex.lt_iff]
      left
      norm_num
    unfold vPlayerCurrentRating argmaxKey
    rw [show ([(⟨0, 7, 1111, 0, 10⟩ : SqlRow ℕ ℕ), ⟨1, 7, 2222, 0, 5⟩].filter
        (fun r => decide (r.player = 7)))
      = [(⟨0, 7, 1111, 0, 10⟩ : SqlRow ℕ ℕ), ⟨1, 7, 2222, 0, 5⟩] from rfl]
    rw [List.foldl_cons, List.foldl_cons, List.foldl_nil]
    rw [show argmaxStep (fun r : SqlRow ℕ ℕ =>
        toLex (matchCreatedAt [(⟨0, 10, 1, []⟩ : MatchRec ℕ ℕ), ⟨1, 5, 2, []⟩] r.matchId,
          r.stamp)) none (⟨0, 7, 1111, 0, 10⟩ : SqlRow ℕ ℕ)
      = some ⟨0, 7, 1111, 0, 10⟩ from rfl]
    show (if (toLex (matchCreatedAt [(⟨0, 10, 1, []⟩ : MatchRec ℕ ℕ), ⟨1, 5, 2, []⟩]
          (0:ℕ), (10:ℤ)) : ℤ ×ₗ ℤ)
        < toLex (matchCreatedAt [(⟨0, 10, 1, []⟩ : MatchRec ℕ ℕ), ⟨1, 5, 2, []⟩]
          (1:ℕ), (5:ℤ))
      then some (⟨1, 7, 2222, 0, 5⟩ : SqlRow ℕ ℕ)
      else some (⟨0, 7, 1111, 0, 10⟩ : SqlRow ℕ ℕ)).map (fun r => r.ratingAfter)
      = some 2222
    rw [show matchCreatedAt [(⟨0, 10, 1, []⟩ : MatchRec ℕ ℕ), ⟨1, 5, 2, []⟩] (0:ℕ)
      = 1 from rfl]
    rw [show matchCreatedAt [(⟨0, 10, 1, []⟩ : MatchRec ℕ ℕ), ⟨1, 5, 2, []⟩] (1:ℕ)
      = 2 from rfl]
    rw [if_pos hlt]
    rfl
  · have hnlt : ¬((toLex (toLex ((10:ℤ), (1:ℤ)), (10:ℤ)) : (ℤ ×ₗ ℤ) ×ₗ ℤ)
        < toLex (toLex (5, 2), 5)) := by
      rw [Prod.Lex.lt_iff]
      rintro (h1 | ⟨h1, h2⟩)
      · rw [show ((toLex ((10:ℤ), (1:ℤ)), (10:ℤ)) : (ℤ ×ₗ ℤ) × ℤ).1
            = toLex ((10:ℤ), (1:ℤ)) from rfl,
          show ((toLex ((5:ℤ), (2:ℤ)), (5:ℤ)) : (ℤ ×ₗ ℤ) × ℤ).1
            = toLex ((5:ℤ), (2:ℤ)) from rfl, Prod.Lex.lt_iff] at h1
        rcases h1 with h1 | ⟨h1, h2⟩
        · norm_num at h1
        · norm_num at h1
      · have h3 : ((10:ℤ), (1:ℤ)) = ((5:ℤ), (2:ℤ)) :=
          toLex.injective h1
        norm_num at h3
    unfold specCurrentRating specMostRecentRating argmaxKey
    rw [show ([(⟨0, 7, 1111, 0, 10⟩ : SqlRow ℕ ℕ), ⟨1, 7, 2222, 0, 5⟩].filter
        (fun r => decide (r.player = 7)))
      = [(⟨0, 7, 1111, 0, 10⟩ : SqlRow ℕ ℕ), ⟨1, 7, 2222, 0, 5⟩] from rfl]
    rw [List.foldl_cons, List.foldl_cons, List.foldl_nil]
    rw [show argmaxStep (fun r : SqlRow ℕ ℕ =>
        toLex (toLex (matchDateOf [(⟨0, 10, 1, []⟩ : MatchRec ℕ ℕ), ⟨1, 5, 2, []⟩]
            r.matchId,
          matchCreatedAt [(⟨0, 10, 1, []⟩ : MatchRec ℕ ℕ), ⟨1, 5, 2, []⟩] r.matchId),
          r.stamp)) none (⟨0, 7, 1111, 0, 10⟩ : SqlRow ℕ ℕ)
      = some ⟨0, 7, 1111, 0, 10⟩ from rfl]
    show ((if (toLex (toLex (matchDateOf
            [(⟨0, 10, 1, []⟩ : MatchRec ℕ ℕ), ⟨1, 5, 2, []⟩] (0:ℕ),
          matchCreatedAt [(⟨0, 10, 1, []⟩ : MatchRec ℕ ℕ), ⟨1, 5, 2, []⟩] (0:ℕ)),
          (10:ℤ)) : (ℤ ×ₗ ℤ) ×ₗ ℤ)
        < toLex (toLex (matchDateOf
            [(⟨0, 10, 1, []⟩ : MatchRec ℕ ℕ), ⟨1, 5, 2, []⟩] (1:ℕ),
          matchCreatedAt [(⟨0, 10, 1, []⟩ : MatchRec ℕ ℕ), ⟨1, 5, 2, []⟩] (1:ℕ)),
          (5:ℤ))
      then some (⟨1, 7, 2222, 0, 5⟩ : SqlRow ℕ ℕ)
      else some (⟨0, 7, 1111, 0, 10⟩ : SqlRow ℕ ℕ)).map
        (fun r => r.ratingAfter)).getD INITIAL_RATING
      = 1111
    rw [show matchDateOf [(⟨0, 10, 1, []⟩ : MatchRec ℕ ℕ), ⟨1, 5, 2, []⟩] (0:ℕ)
      = 10 from rfl]
    rw [show matchCreatedAt [(⟨0, 10, 1, []⟩ : MatchRec ℕ ℕ), ⟨1, 5, 2, []⟩] (0:ℕ)
      = 1 from rfl]
    rw [show matchDateOf [(⟨0, 10, 1, []⟩ : MatchRec ℕ ℕ), ⟨1, 5, 2, []⟩] (1:ℕ)
      = 5 from rfl]
    rw [show matchCreatedAt [(⟨0, 10, 1, []⟩ : MatchRec ℕ ℕ), ⟨1, 5, 2, []⟩] (1:ℕ)
      = 2 from rfl]
    rw [if_neg hnlt]
    rfl

end Rating
